import Mathlib

/-!
Shallow embedding of the layout-analysis core of the
`conversational-pdf-accessibility` repository, together with proofs about the
claims of its specification.

Sources embedded:
  * `src/lib/extract-script.mjs` — `detectColumns`, `detectTable`,
    `detectFigures`, `detectMathEquations`, `createReadingOrder`;
  * `src/app/reader/page.tsx` — `determineHeadingLevel`,
    `processDocumentStructure`;
  * `src/app/api/analyze/route.ts` — body-font-size selection and the
    `isScanned` classification.

Modelling conventions: JavaScript numbers are modelled as exact rationals
(`ℚ`); `Math.round` is `round` (both round half toward positive infinity);
JavaScript strings are Lean `String`s, with the JS whitespace class restricted
to its ASCII members; `Array.prototype.sort` (stable in JS) is modelled by
`List.mergeSort` with the relation "comparator result is not positive";
the `Map` objects are modelled by association lists in insertion order.
-/

/-- Characters treated as whitespace in our model of the JavaScript string
functions used by the source (String.prototype.trim and the regex class
backslash-s), restricted to the ASCII whitespace characters. -/
def isJsWs (c : Char) : Bool :=
  c = ' ' || c = '\t' || c = '\n' || c = '\r' || c = '\x0b' || c = '\x0c'

/-- Model of JavaScript String.prototype.trim on character lists: drop leading
and trailing whitespace. -/
def jsTrimData (l : List Char) : List Char :=
  ((l.dropWhile isJsWs).reverse.dropWhile isJsWs).reverse

/-- Model of JavaScript String.prototype.trim. -/
def jsTrim (s : String) : String := String.mk (jsTrimData s.data)

/-- A positioned text run (the `items` produced by the extraction script):
`{text, x, y, width, height, fontSize, fontName}`, numeric fields already
rounded to one decimal by the Token Normalizer. -/
structure Tok where
  text : String
  x : ℚ
  y : ℚ
  width : ℚ
  height : ℚ
  fontSize : ℚ
  fontName : String
  deriving DecidableEq

/-- Helper to build a token whose only relevant fields are `y` and `text`. -/
def mkTok (y : ℚ) (text : String) : Tok :=
  { text := text, x := 0, y := y, width := 0, height := 0, fontSize := 0, fontName := "" }

/- ## Equation Detector (`detectMathEquations`, extract-script.mjs lines 208-270) -/

/-- The character class of the `mathSymbols` regex in `detectMathEquations`. -/
def mathSymChars : List Char :=
  ['∑', '∫', '∂', '√', '∞', '≈', '≠', '≤', '≥', '±', '×', '÷',
   '∈', '∉', '⊂', '⊃', '∪', '∩', '∀', '∃', '∇', '∆',
   'λ', 'μ', 'σ', 'π', 'θ', 'α', 'β', 'γ']

/-- Subscript digit characters of the `mathPatterns` regex. -/
def subDigitChars : List Char :=
  ['₀', '₁', '₂', '₃', '₄', '₅', '₆', '₇', '₈', '₉']

/-- Superscript digit characters of the `mathPatterns` regex. -/
def supDigitChars : List Char :=
  ['⁰', '¹', '²', '³', '⁴', '⁵', '⁶', '⁷', '⁸', '⁹']

/-- The first alternative of `mathPatterns`: an ASCII letter at the start,
then optional whitespace, then an equals sign. -/
def startsLetterEq : List Char → Bool
  | c :: rest => c.isAlpha && ((rest.dropWhile isJsWs).headD ' ' = '=')
  | [] => false

/-- The second alternative of `mathPatterns`: `x` or `y`, a caret, a digit. -/
def startsXYCaret : List Char → Bool
  | c :: '^' :: d :: _ => (c = 'x' || c = 'y') && d.isDigit
  | _ => false

/-- Whether a token text is math-bearing: it matches `mathSymbols` or
`mathPatterns` in `detectMathEquations`. -/
def hasMathToken (s : String) : Bool :=
  s.data.any (fun c => mathSymChars.contains c) ||
  startsLetterEq s.data || startsXYCaret s.data ||
  s.data.any (fun c => subDigitChars.contains c) ||
  s.data.any (fun c => supDigitChars.contains c)

/-- Operator and bracket characters of the equation-safe continuation class
(the single-character regex in the non-math branch). -/
def eqSafeOpChars : List Char :=
  ['+', '-', '*', '/', '=', '(', ')', '[', ']', '\x7b', '\x7d', '.', ',']

/-- A character of the equation-safe continuation class. -/
def eqSafeChar (c : Char) : Bool :=
  c.isAlpha || c.isDigit || eqSafeOpChars.contains c || isJsWs c

/-- The full continuation regex: it is anchored on both sides with no
quantifier, so it matches exactly the one-character equation-safe texts. -/
def eqSafeSingle (s : String) : Bool :=
  match s.data with
  | [c] => eqSafeChar c
  | _ => false

/-- An equation span: `{text, items, y}`. -/
structure Equation where
  text : String
  items : List Tok
  y : ℚ
  deriving DecidableEq

/-- JavaScript truthiness test of the `equationStartY` variable: the value is
falsy when it is still `null` or when it is the number `0`. -/
def falsyY : Option ℚ → Bool
  | none => true
  | some v => decide (v = 0)

/-- Builds the emitted equation record from the running span: the text joins
the item texts with single spaces, `y` is the current `equationStartY`
(JavaScript arithmetic coerces `null` to 0, hence `getD 0`). -/
def mkEquation (cur : List Tok) (sy : Option ℚ) : Equation :=
  { text := String.intercalate " " (cur.map (fun t => t.text)), items := cur, y := sy.getD 0 }

/-- One step of the `items.forEach` loop of `detectMathEquations`.  State:
(equations emitted so far, `currentEquation`, `equationStartY`). -/
def eqStep (st : List Equation × List Tok × Option ℚ) (t : Tok) :
    List Equation × List Tok × Option ℚ :=
  let eqs := st.1
  let cur := st.2.1
  let sy := st.2.2
  if hasMathToken t.text then
    if falsyY sy ∨ |t.y - sy.getD 0| < 10 then
      (eqs, cur ++ [t], if falsyY sy then some t.y else sy)
    else
      ((if 0 < cur.length then eqs ++ [mkEquation cur sy] else eqs), [t], some t.y)
  else if 0 < cur.length then
    if |t.y - sy.getD 0| < 10 ∧ eqSafeSingle t.text then
      (eqs, cur ++ [t], sy)
    else
      ((if 3 ≤ cur.length then eqs ++ [mkEquation cur sy] else eqs), [], none)
  else (eqs, cur, sy)

/-- `detectMathEquations` from extract-script.mjs: fold the step over the
items, then flush a remaining span of at least 3 tokens. -/
def detectMathEquations (items : List Tok) : List Equation :=
  let st := items.foldl eqStep ([], [], none)
  if 3 ≤ st.2.1.length then st.1 ++ [mkEquation st.2.1 st.2.2] else st.1


/-- Boolean check that an emitted equation is anchored at its first token:
the `y` field equals the first item's `y` and every item lies strictly within
10 units of it. -/
def eqBandOKb (e : Equation) : Bool :=
  match e.items with
  | [] => false
  | t0 :: _ => decide (e.y = t0.y) && e.items.all (fun t => decide (|t.y - e.y| < 10))

/-- Invariant of the `detectMathEquations` fold when every token has a nonzero
`y`: emitted equations are anchored, and the running span is either empty with
a `null` start, or anchored at its own first token (whose `y`, being nonzero,
is truthy). -/
def EqInvP (st : List Equation × List Tok × Option ℚ) : Prop :=
  (∀ e ∈ st.1, eqBandOKb e = true) ∧
  ((st.2.1 = [] ∧ st.2.2 = none) ∨
   (∃ t0 l, st.2.1 = t0 :: l ∧ st.2.2 = some t0.y ∧ t0.y ≠ 0 ∧
     ∀ t ∈ st.2.1, |t.y - t0.y| < 10))

theorem mkEquation_band {t0 : Tok} {l : List Tok}
    (hb : ∀ t ∈ t0 :: l, |t.y - t0.y| < 10) :
    eqBandOKb (mkEquation (t0 :: l) (some t0.y)) = true := by
  simp only [eqBandOKb, mkEquation, Option.getD_some, List.all_eq_true,
    Bool.and_eq_true, decide_eq_true_eq]
  exact ⟨trivial, hb⟩

theorem eqStep_inv {st : List Equation × List Tok × Option ℚ} {t : Tok}
    (ht : t.y ≠ 0) (h : EqInvP st) : EqInvP (eqStep st t) := by
  obtain ⟨he, hcur⟩ := h
  rcases st with ⟨eqs, cur, sy⟩
  have he' : ∀ e ∈ eqs, eqBandOKb e = true := he
  rcases hcur with ⟨hc, hs⟩ | ⟨t0, l, hc, hs, h0, hb⟩
  · have hc' : cur = [] := hc
    have hs' : sy = none := hs
    subst hc'; subst hs'
    by_cases hm : hasMathToken t.text = true
    · have hstep : eqStep (eqs, ([] : List Tok), (none : Option ℚ)) t =
          (eqs, [t], some t.y) := by
        simp [eqStep, hm, falsyY]
      rw [hstep]
      exact ⟨he', Or.inr ⟨t, [], rfl, rfl, ht, by simp⟩⟩
    · have hm' : hasMathToken t.text = false := by
        simpa using hm
      have hstep : eqStep (eqs, ([] : List Tok), (none : Option ℚ)) t =
          (eqs, [], none) := by
        simp [eqStep, hm']
      rw [hstep]
      exact ⟨he', Or.inl ⟨rfl, rfl⟩⟩
  · have hc' : cur = t0 :: l := hc
    have hs' : sy = some t0.y := hs
    subst hc'; subst hs'
    have hb' : ∀ u ∈ t0 :: l, |u.y - t0.y| < 10 := hb
    have hfal : falsyY (some t0.y) = false := by
      simp [falsyY, h0]
    by_cases hm : hasMathToken t.text = true
    · by_cases hband : |t.y - t0.y| < 10
      · have hstep : eqStep (eqs, t0 :: l, some t0.y) t =
            (eqs, t0 :: (l ++ [t]), some t0.y) := by
          simp [eqStep, hm, hfal, hband]
        rw [hstep]
        refine ⟨he', Or.inr ⟨t0, l ++ [t], rfl, rfl, h0, ?_⟩⟩
        intro u hu
        rcases List.mem_cons.mp hu with hu' | hu'
        · subst hu'; simp
        · rcases List.mem_append.mp hu' with hu'' | hu''
          · exact hb' u (List.mem_cons_of_mem _ hu'')
          · simp only [List.mem_singleton] at hu''
            subst hu''
            exact hband
      · have hstep : eqStep (eqs, t0 :: l, some t0.y) t =
            (eqs ++ [mkEquation (t0 :: l) (some t0.y)], [t], some t.y) := by
          simp [eqStep, hm, hfal, hband]
        rw [hstep]
        refine ⟨?_, Or.inr ⟨t, [], rfl, rfl, ht, by simp⟩⟩
        intro e hme
        rcases List.mem_append.mp hme with hme' | hme'
        · exact he' e hme'
        · simp only [List.mem_singleton] at hme'
          subst hme'
          exact mkEquation_band hb'
    · have hm' : hasMathToken t.text = false := by
        simpa using hm
      by_cases hcont : |t.y - t0.y| < 10 ∧ eqSafeSingle t.text = true
      · have hstep : eqStep (eqs, t0 :: l, some t0.y) t =
            (eqs, t0 :: (l ++ [t]), some t0.y) := by
          simp [eqStep, hm', hcont.1, hcont.2]
        rw [hstep]
        refine ⟨he', Or.inr ⟨t0, l ++ [t], rfl, rfl, h0, ?_⟩⟩
        intro u hu
        rcases List.mem_cons.mp hu with hu' | hu'
        · subst hu'; simp
        · rcases List.mem_append.mp hu' with hu'' | hu''
          · exact hb' u (List.mem_cons_of_mem _ hu'')
          · simp only [List.mem_singleton] at hu''
            subst hu''
            exact hcont.1
      · have hstep : eqStep (eqs, t0 :: l, some t0.y) t =
            ((if 3 ≤ (t0 :: l).length then
                eqs ++ [mkEquation (t0 :: l) (some t0.y)] else eqs), [], none) := by
          simp only [eqStep, Option.getD_some]
          rw [if_neg (by simp [hm']), if_pos (by simp), if_neg hcont]
        rw [hstep]
        refine ⟨?_, Or.inl ⟨rfl, rfl⟩⟩
        by_cases h3 : 3 ≤ (t0 :: l).length
        · simp only [h3, if_pos]
          intro e hme
          rcases List.mem_append.mp hme with hme' | hme'
          · exact he' e hme'
          · simp only [List.mem_singleton] at hme'
            subst hme'
            exact mkEquation_band hb'
        · simp only [h3, if_neg]
          exact he'

theorem foldl_eqStep_inv (items : List Tok) :
    ∀ st : List Equation × List Tok × Option ℚ,
      (∀ t ∈ items, t.y ≠ 0) → EqInvP st → EqInvP (items.foldl eqStep st) := by
  induction items with
  | nil => intro st _ h; simpa using h
  | cons t rest ih =>
      intro st hy h
      simp only [List.foldl_cons]
      exact ih (eqStep st t)
        (fun u hu => hy u (List.mem_cons_of_mem _ hu))
        (eqStep_inv (hy t (List.mem_cons_self _ _)) h)

/-- C10 (amended): if every input token has a nonzero `y` coordinate, then
every equation emitted by `detectMathEquations` is anchored at its first
token: its `y` field equals the first item's `y` coordinate and every item of
the span lies strictly within 10 units of it.  (The nonzero hypothesis is
forced by JavaScript falsiness: a span whose first token has `y = 0` gets its
anchor silently re-assigned to a later token.) -/
theorem detectMathEquations_anchored (items : List Tok)
    (hy : ∀ t ∈ items, t.y ≠ 0) :
    ∀ e ∈ detectMathEquations items, eqBandOKb e = true := by
  have hinv : EqInvP (items.foldl eqStep ([], [], none)) :=
    foldl_eqStep_inv items ([], [], none) hy ⟨by simp, Or.inl ⟨rfl, rfl⟩⟩
  obtain ⟨he, hcur⟩ := hinv
  unfold detectMathEquations
  by_cases h3 : 3 ≤ (items.foldl eqStep ([], [], none)).2.1.length
  · simp only [h3, if_pos]
    intro e hme
    rcases List.mem_append.mp hme with hme' | hme'
    · exact he e hme'
    · simp only [List.mem_singleton] at hme'
      subst hme'
      rcases hcur with ⟨hc, _⟩ | ⟨t0, l, hc, hs, _, hb⟩
      · rw [hc] at h3; simp at h3
      · rw [hc, hs]
        exact mkEquation_band (hc ▸ hb)
  · simp only [h3, if_neg]
    exact he

/-- C10 counterexample: on the concrete input with a math-bearing token at
`y = 0` followed by two math-bearing tokens at `y = 50`, the single emitted
equation has `y = 50` while its first item has `y = 0`, which also lies 50
units outside the band: `0` is falsy in JavaScript, so the anchor is
re-assigned mid-span. -/
theorem detectMathEquations_zero_y_counterexample :
    ¬ (∀ e ∈ detectMathEquations [mkTok 0 "∑", mkTok 50 "∫", mkTok 50 "∂"],
        eqBandOKb e = true) := by
  with_unfolding_all decide

/-- Witness for `detectMathEquations_anchored` at the specification's own
scenario (math tokens at y = 500, 500, 498). -/
theorem detectMathEquations_anchored_witness :
    (∀ t ∈ [mkTok 500 "∑", mkTok 500 "i=1", mkTok 498 "n"], t.y ≠ 0) ∧
    (∀ e ∈ detectMathEquations [mkTok 500 "∑", mkTok 500 "i=1", mkTok 498 "n"],
      eqBandOKb e = true) :=
  ⟨by with_unfolding_all decide,
   detectMathEquations_anchored _ (by with_unfolding_all decide)⟩

/-- C1 counterexample: two math-bearing tokens 100 units apart.  The second
one closes the first span because it is math-bearing but outside the 10-unit
band, and that code path emits the previous span whenever it is nonempty --
here a one-token span, so an Equation with fewer than 3 tokens appears in the
output. -/
theorem detectMathEquations_short_span_emitted :
    ¬ (∀ e ∈ detectMathEquations [mkTok 500 "∑", mkTok 600 "∫"],
        3 ≤ e.items.length) := by
  with_unfolding_all decide

/-- C1 (amended): a two-token run of math-bearing tokens inside the 10-unit
band yields no Equation when the span is closed by the end of the input, and
none when it is closed by a non-math-bearing token that fails the
equation-safe continuation test.  (The original claim's third closing mode --
a math-bearing token outside the band -- does emit short spans, as the
counterexample shows.) -/
theorem detectMathEquations_two_token_run_discarded (t1 t2 t3 : Tok)
    (h1 : hasMathToken t1.text = true) (h2 : hasMathToken t2.text = true)
    (hband : |t2.y - t1.y| < 10)
    (h3m : hasMathToken t3.text = false) (h3s : eqSafeSingle t3.text = false) :
    detectMathEquations [t1, t2] = [] ∧ detectMathEquations [t1, t2, t3] = [] := by
  have hstep1 : eqStep ([], [], none) t1 = ([], [t1], some t1.y) := by
    simp [eqStep, h1, falsyY]
  have hstep2 : eqStep ([], [t1], some t1.y) t2 =
      ([], [t1, t2], if falsyY (some t1.y) then some t2.y else some t1.y) := by
    simp [eqStep, h2, hband]
  have hstep3 : ∀ sy : Option ℚ,
      eqStep ([], [t1, t2], sy) t3 = ([], [], none) := by
    intro sy
    have hns : ¬ (|t3.y - sy.getD 0| < 10 ∧ eqSafeSingle t3.text = true) := by
      intro hcon
      rw [h3s] at hcon
      exact absurd hcon.2 (by simp)
    simp only [eqStep, List.length_cons, List.length_nil]
    rw [if_neg (by simp [h3m]), if_pos (by simp), if_neg hns]
    simp
  constructor
  · show detectMathEquations [t1, t2] = []
    unfold detectMathEquations
    simp only [List.foldl_cons, List.foldl_nil, hstep1, hstep2]
    split
    · rename_i hlen
      simp at hlen
    · rfl
  · show detectMathEquations [t1, t2, t3] = []
    unfold detectMathEquations
    simp only [List.foldl_cons, List.foldl_nil, hstep1, hstep2, hstep3]
    rfl

/-- Witness for `detectMathEquations_two_token_run_discarded` on concrete
tokens: two in-band math symbols followed by a non-math, non-continuation
token. -/
theorem detectMathEquations_two_token_run_discarded_witness :
    detectMathEquations [mkTok 500 "∑", mkTok 501 "∫"] = [] ∧
    detectMathEquations [mkTok 500 "∑", mkTok 501 "∫", mkTok 500 "%%"] = [] :=
  detectMathEquations_two_token_run_discarded
    (mkTok 500 "∑") (mkTok 501 "∫") (mkTok 500 "%%")
    (by with_unfolding_all decide) (by with_unfolding_all decide)
    (by with_unfolding_all decide) (by with_unfolding_all decide)
    (by with_unfolding_all decide)

/- ## Heading levels (`determineHeadingLevel`, reader page.tsx lines 98-128) -/

/-- Model of JavaScript String.prototype.toLowerCase (ASCII range). -/
def strToLower (s : String) : String := String.mk (s.data.map Char.toLower)

/-- Model of JavaScript String.prototype.toUpperCase (ASCII range). -/
def strToUpper (s : String) : String := String.mk (s.data.map Char.toUpper)

/-- Model of JavaScript String.prototype.includes on character lists. -/
def containsSub : List Char → List Char → Bool
  | [], pat => pat.isEmpty
  | c :: rest, pat => pat.isPrefixOf (c :: rest) || containsSub rest pat

/-- Model of JavaScript String.prototype.includes. -/
def strIncludes (s pat : String) : Bool := containsSub s.data pat.data

/-- The word fragments whose presence in the lower-cased font name scores a
style point in `determineHeadingLevel`. -/
def boldWords : List String := [r"bold", r"black", r"heavy"]

/-- The `determineHeadingLevel` scoring function from the reader page.
The float literals 1.8, 1.4, 1.1, 0.5 and 0.1 are modelled as exact
rationals. -/
def determineHeadingLevel (item : Tok) (body_font_threshold : ℚ)
    (page_width : ℚ) : ℕ :=
  let ratio := item.fontSize / body_font_threshold
  let text := jsTrim item.text
  let level0 : ℕ :=
    if ratio ≥ 18/10 then 1
    else if ratio ≥ 14/10 then 2
    else if ratio ≥ 11/10 then 3
    else 0
  let font := strToLower item.fontName
  let score0 : ℕ := if boldWords.any (fun w => strIncludes font w) then 1 else 0
  let score1 : ℕ :=
    score0 + (if text = strToUpper text ∧ 3 < text.length then 1 else 0)
  let text_center := item.x + (text.length : ℚ) * item.fontSize * (1/2)
  let page_center := page_width / 2
  let score2 : ℕ :=
    score1 + (if |text_center - page_center| < page_width * (1/10) then 1 else 0)
  let score3 : ℕ := score2 + (if text.length < 60 then 1 else 0)
  let level1 : ℕ := if 2 ≤ score3 ∧ level0 = 0 then 3 else level0
  if 120 < text.length then 0 else level1

/-- C8: a token whose trimmed text is longer than 120 characters never
produces a heading -- `determineHeadingLevel` returns 0 regardless of the
font size, font name, position, body-font threshold or page width. -/
theorem determineHeadingLevel_long_text (item : Tok) (bf pw : ℚ)
    (h : 120 < (jsTrim item.text).length) :
    determineHeadingLevel item bf pw = 0 := by
  unfold determineHeadingLevel
  simp only []
  rw [if_pos h]

/-- A 121-character text used to witness the long-text cutoff. -/
def longText121 : String := String.mk (List.replicate 121 'a')

/-- Witness for `determineHeadingLevel_long_text` on a concrete token with a
121-character text and a large font size. -/
theorem determineHeadingLevel_long_text_witness :
    120 < (jsTrim (mkTok 0 longText121).text).length ∧
    determineHeadingLevel (mkTok 0 longText121) 12 600 = 0 :=
  ⟨by with_unfolding_all decide,
   determineHeadingLevel_long_text (mkTok 0 longText121) 12 600
     (by with_unfolding_all decide)⟩

/- ## Figure Detector (`detectFigures`, extract-script.mjs lines 172-205) -/

/-- A detected figure: `{label, number, caption, x, y, altText}`. -/
structure Figure where
  label : String
  number : String
  caption : String
  x : ℚ
  y : ℚ
  altText : String
  deriving DecidableEq

/-- Keyword alternatives of the caption-label regex, in the regex's
alternation order ("Figure", "Fig.", "Fig", "Image", "Diagram"; the optional
dot of `Fig\.?` is expanded into the two alternatives it can match). -/
def kwFigure : List Char := "Figure".data

/-- Second alternative of the caption-label regex. -/
def kwFigDot : List Char := "Fig.".data

/-- Third alternative of the caption-label regex. -/
def kwFig : List Char := "Fig".data

/-- Fourth alternative of the caption-label regex. -/
def kwImage : List Char := "Image".data

/-- Fifth alternative of the caption-label regex. -/
def kwDiagram : List Char := "Diagram".data

/-- Case-insensitive prefix match: on success, returns the matched characters
of the subject (preserving their original case, as a regex match does) and
the unconsumed remainder. -/
def ciPrefix : List Char → List Char → Option (List Char × List Char)
  | [], s => some ([], s)
  | _ :: _, [] => none
  | k :: ks, c :: cs =>
      if c.toLower = k.toLower then
        (ciPrefix ks cs).map (fun p => (c :: p.1, p.2))
      else none

/-- The optional-dot tail of the number group `[0-9]+[.]?[0-9]*`: a dot
followed by greedily taken digits, or nothing. -/
def numTail : List Char → List Char
  | '.' :: r => '.' :: r.takeWhile Char.isDigit
  | _ => []

/-- After a keyword alternative: require one or more whitespace characters,
then the number group.  Returns (whitespace-plus-number characters consumed,
number-group characters). -/
def afterKw (s : List Char) : Option (List Char × List Char) :=
  let ws := s.takeWhile isJsWs
  if ws.isEmpty then none
  else
    let r := s.dropWhile isJsWs
    let d1 := r.takeWhile Char.isDigit
    if d1.isEmpty then none
    else
      let num := d1 ++ numTail (r.dropWhile Char.isDigit)
      some (ws ++ num, num)

/-- Try one keyword alternative at the start of the text: on success returns
(whole matched text, number group), the regex's `match[0]` and `match[2]`. -/
def tryKw (kw : List Char) (cs : List Char) : Option (String × String) :=
  (ciPrefix kw cs).bind (fun p =>
    (afterKw p.2).map (fun q => (String.mk (p.1 ++ q.1), String.mk q.2)))

/-- The caption-label regex of `detectFigures`, anchored at the start of the
token text, with the alternatives tried in the regex's backtracking order. -/
def figureMatch (s : String) : Option (String × String) :=
  tryKw kwFigure s.data <|> tryKw kwFigDot s.data <|> tryKw kwFig s.data <|>
  tryKw kwImage s.data <|> tryKw kwDiagram s.data

/-- The caption-accumulation loop of `detectFigures`: for each look-ahead
token, `yDiff` is label-y minus token-y; a token with `-20 < yDiff < 30` is
appended, a token with `yDiff ≥ 30` stops the loop, and any other token
(more than 20 units above the label) is skipped without stopping. -/
def buildCaption (labelY : ℚ) : String → List Tok → String
  | acc, [] => acc
  | acc, t :: rest =>
    let d := labelY - t.y
    if -20 < d ∧ d < 30 then buildCaption labelY (acc ++ " " ++ t.text) rest
    else if 30 ≤ d then acc
    else buildCaption labelY acc rest

/-- `detectFigures` from extract-script.mjs: for every token matching the
caption-label pattern, emit a Figure whose caption starts with the token's
own text and accumulates the following at most 9 tokens
(`items.slice(index+1, index+10)`) via `buildCaption`, trimmed. -/
def detectFigures (items : List Tok) : List Figure :=
  items.enum.filterMap (fun p =>
    (figureMatch p.2.text).map (fun m =>
      { label := m.1, number := m.2,
        caption := jsTrim (buildCaption p.2.y p.2.text ((items.drop (p.1 + 1)).take 9)),
        x := p.2.x, y := p.2.y, altText := "" }))

/-- Concatenation of a list of strings. -/
def sjoin (l : List String) : String := l.foldr (fun a b => a ++ b) ""

/-- The appended caption pieces as the amended claim describes them: scan the
look-ahead window until the first token at least 30 units below the label,
and of those keep exactly the in-window tokens. -/
def figWindowTexts (labelY : ℚ) (l : List Tok) : List String :=
  ((l.takeWhile (fun u => decide (labelY - u.y < 30))).filter
    (fun u => decide (-20 < labelY - u.y))).map (fun u => " " ++ u.text)

/-- Figure detection as the amended claim states it (identical to
`detectFigures` except that the caption is described by
`figWindowTexts`). -/
def detectFiguresAmended (items : List Tok) : List Figure :=
  items.enum.filterMap (fun p =>
    (figureMatch p.2.text).map (fun m =>
      { label := m.1, number := m.2,
        caption := jsTrim (p.2.text ++
          sjoin (figWindowTexts p.2.y ((items.drop (p.1 + 1)).take 9))),
        x := p.2.x, y := p.2.y, altText := "" }))

/-- The caption pieces as claim C4 states them: appending stops at the very
first token whose offset falls outside the window, in either direction. -/
def figStopTexts (labelY : ℚ) (l : List Tok) : List String :=
  (l.takeWhile (fun u =>
    decide (-20 < labelY - u.y ∧ labelY - u.y < 30))).map (fun u => " " ++ u.text)

/-- Figure detection as claim C4 literally states it. -/
def detectFiguresClaimed (items : List Tok) : List Figure :=
  items.enum.filterMap (fun p =>
    (figureMatch p.2.text).map (fun m =>
      { label := m.1, number := m.2,
        caption := jsTrim (p.2.text ++
          sjoin (figStopTexts p.2.y ((items.drop (p.1 + 1)).take 9))),
        x := p.2.x, y := p.2.y, altText := "" }))

theorem sjoin_nil : sjoin [] = "" := rfl

theorem sjoin_cons (a : String) (l : List String) :
    sjoin (a :: l) = a ++ sjoin l := rfl

theorem figWindowTexts_cons_below (labelY : ℚ) (t : Tok) (rest : List Tok)
    (h30 : ¬ labelY - t.y < 30) :
    figWindowTexts labelY (t :: rest) = [] := by
  simp [figWindowTexts, List.takeWhile_cons, h30]

theorem figWindowTexts_cons_in (labelY : ℚ) (t : Tok) (rest : List Tok)
    (h30 : labelY - t.y < 30) (h20 : -20 < labelY - t.y) :
    figWindowTexts labelY (t :: rest) =
      (" " ++ t.text) :: figWindowTexts labelY rest := by
  unfold figWindowTexts
  rw [List.takeWhile_cons, if_pos (by simpa using h30),
    List.filter_cons, if_pos (by simpa using h20)]
  rfl

theorem figWindowTexts_cons_above (labelY : ℚ) (t : Tok) (rest : List Tok)
    (h30 : labelY - t.y < 30) (h20 : ¬ -20 < labelY - t.y) :
    figWindowTexts labelY (t :: rest) = figWindowTexts labelY rest := by
  unfold figWindowTexts
  rw [List.takeWhile_cons, if_pos (by simpa using h30),
    List.filter_cons, if_neg (by simpa using h20)]

theorem buildCaption_eq (labelY : ℚ) (l : List Tok) :
    ∀ acc : String,
      buildCaption labelY acc l = acc ++ sjoin (figWindowTexts labelY l) := by
  induction l with
  | nil =>
      intro acc
      simp [buildCaption, figWindowTexts, sjoin, String.append_empty]
  | cons t rest ih =>
      intro acc
      by_cases h30 : labelY - t.y < 30
      · by_cases h20 : -20 < labelY - t.y
        · simp only [buildCaption]
          rw [if_pos ⟨h20, h30⟩, ih, figWindowTexts_cons_in labelY t rest h30 h20,
            sjoin_cons]
          simp [String.append_assoc]
        · simp only [buildCaption]
          rw [if_neg (fun hc => h20 hc.1), if_neg (by linarith), ih,
            figWindowTexts_cons_above labelY t rest h30 h20]
      · simp only [buildCaption]
        rw [if_neg (fun hc => h30 hc.2), if_pos (by linarith),
          figWindowTexts_cons_below labelY t rest h30]
        simp [sjoin, String.append_empty]

/-- C4 (amended): for every token list, the Figure Detector appends the text
of at most 9 subsequent tokens; the scan over those tokens stops at the first
token at least 30 units below the label, and of the scanned tokens exactly
the ones inside the window (less than 20 above and less than 30 below)
contribute to the caption -- a token more than 20 units above the label is
skipped without stopping the scan. -/
theorem detectFigures_eq_amended (items : List Tok) :
    detectFigures items = detectFiguresAmended items := by
  unfold detectFigures detectFiguresAmended
  apply List.filterMap_congr
  intro p _
  cases hm : figureMatch p.2.text with
  | none => rfl
  | some m =>
      simp only [Option.map_some']
      congr 1
      rw [buildCaption_eq]

/-- C4 counterexample input: a caption label at `y = 100`, a token 30 units
above it (outside the window, so the claim says appending stops), and a
token back at `y = 100`. -/
def figCounterItems : List Tok :=
  [mkTok 100 r"Figure 1", mkTok 130 r"skipme", mkTok 100 r"tail"]

/-- C4 counterexample: the code appends the text of a token that comes after
the first out-of-window token (`caption = "Figure 1 tail"`), while the claim,
which stops at the first out-of-window token, would give `"Figure 1"`. -/
theorem detectFigures_counterexample :
    (detectFigures figCounterItems).map (fun f => f.caption) =
      [r"Figure 1 tail"] ∧
    (detectFiguresClaimed figCounterItems).map (fun f => f.caption) =
      [r"Figure 1"] ∧
    (r"Figure 1 tail" : String) ≠ r"Figure 1" := by
  refine ⟨?_, ?_, ?_⟩ <;> with_unfolding_all decide

/- ## Table Detector (`detectTable`, extract-script.mjs lines 65-159) -/

/-- A table cell (a token reinterpreted as a grid cell). -/
structure TableCell where
  text : String
  x : ℚ
  y : ℚ
  width : ℚ
  height : ℚ
  fontSize : ℚ
  fontName : String
  deriving DecidableEq

/-- A table row. -/
structure TableRow where
  cells : List TableCell
  deriving DecidableEq

/-- A detected table. -/
structure Table where
  rows : List TableRow
  deriving DecidableEq

/-- Reinterpret a token as a table cell (the field copy in `detectTable`). -/
def tokToCell (t : Tok) : TableCell :=
  { text := t.text, x := t.x, y := t.y, width := t.width, height := t.height,
    fontSize := t.fontSize, fontName := t.fontName }

/-- Stable sort of tokens by `x` ascending (the JS comparator
`(a, b) => a.x - b.x`). -/
def sortByX (l : List Tok) : List Tok :=
  l.mergeSort (fun a b => decide (a.x ≤ b.x))

/-- One step of the row-grouping loop of `detectTable`: the token joins the
first existing row (in insertion order) whose key is within the 5-unit
tolerance, else opens a new row keyed by its own `y`. -/
def addToRows : List (ℚ × List Tok) → Tok → List (ℚ × List Tok)
  | [], t => [(t.y, [t])]
  | (yk, rts) :: rest, t =>
      if |yk - t.y| < 5 then (yk, rts ++ [t]) :: rest
      else (yk, rts) :: addToRows rest t

/-- The `meaningfulItems` filter of `detectTable`: nonempty trimmed text,
width above 5 and font size above 8. -/
def meaningfulItems (items : List Tok) : List Tok :=
  items.filter (fun t =>
    decide (0 < (jsTrim t.text).length ∧ 5 < t.width ∧ 8 < t.fontSize))

/-- The grouped rows of `detectTable`, in insertion order. -/
def rowsOf (items : List Tok) : List (List Tok) :=
  ((meaningfulItems items).foldl addToRows []).map (fun r => r.2)

/-- A candidate table row: its count of tokens with trimmed length above 3
is between 2 and 4 inclusive. -/
def isCandidateRow (row : List Tok) : Bool :=
  let n := (row.filter (fun t => decide (3 < (jsTrim t.text).length))).length
  decide (2 ≤ n ∧ n ≤ 4)

/-- The candidate table rows of a page. -/
def candidateRows (items : List Tok) : List (List Tok) :=
  (rowsOf items).filter isCandidateRow

/-- `detectTable` from extract-script.mjs. -/
def detectTable (items : List Tok) : Option Table :=
  if items.length < 8 then none
  else
    let tableRows := candidateRows items
    if tableRows.length < 5 then none
    else
      let columnPositions := tableRows.map (fun row => (sortByX row).map (fun t => t.x))
      let columnCounts : List ℕ := columnPositions.map (fun cols => cols.length)
      let avgColumnCount : ℚ := (columnCounts.sum : ℚ) / (columnCounts.length : ℚ)
      let numColumns : ℤ := round avgColumnCount
      if ¬ (columnCounts.all (fun c => decide ((c : ℤ) = numColumns))) then none
      else
        let columnXAverages := (List.range numColumns.toNat).map (fun col =>
          let xs := (columnPositions.filter (fun row => decide (col < row.length))).map
            (fun row => row.getD col 0)
          xs.sum / (xs.length : ℚ))
        if ¬ (columnPositions.all (fun row =>
            row.enum.all (fun p => decide (|p.2 - columnXAverages.getD p.1 0| < 30)))) then
          none
        else
          some { rows := tableRows.map (fun row =>
            { cells := (sortByX (row.filter
                (fun t => decide (0 < (jsTrim t.text).length)))).map tokToCell }) }

/-- C6: a page with fewer than 5 candidate table rows (rows whose count of
tokens with trimmed length above 3 is between 2 and 4 inclusive) never yields
a table: `detectTable` returns `none`. -/
theorem detectTable_needs_five_rows (items : List Tok)
    (h : (candidateRows items).length < 5) : detectTable items = none := by
  simp only [detectTable]
  by_cases h8 : items.length < 8
  · rw [if_pos h8]
  · rw [if_neg h8, if_pos h]

/-- A substantial aligned grid cell token for the C6 witness. -/
def mkCellTok (x y : ℚ) : Tok :=
  { text := r"cell", x := x, y := y, width := 40, height := 10, fontSize := 10,
    fontName := "" }

/-- Four perfectly aligned 3-column rows (the claim's "in particular"
scenario). -/
def fourRowGrid : List Tok :=
  [mkCellTok 100 700, mkCellTok 250 700, mkCellTok 400 700,
   mkCellTok 100 680, mkCellTok 250 680, mkCellTok 400 680,
   mkCellTok 100 660, mkCellTok 250 660, mkCellTok 400 660,
   mkCellTok 100 640, mkCellTok 250 640, mkCellTok 400 640]

/-- Witness for `detectTable_needs_five_rows`: a page of 4 perfectly aligned
3-column rows has 4 candidate rows and returns `none`. -/
theorem detectTable_needs_five_rows_witness :
    (candidateRows fourRowGrid).length < 5 ∧ detectTable fourRowGrid = none :=
  ⟨by with_unfolding_all decide,
   detectTable_needs_five_rows fourRowGrid (by with_unfolding_all decide)⟩

/- ## Reading-Order Sequencer (`createReadingOrder`, extract-script.mjs 286-336) -/

/-- A detected column band `{startX, endX, centerX}`. -/
structure Column where
  startX : ℚ
  endX : ℚ
  centerX : ℚ
  deriving DecidableEq

/-- The reading-order comparator of the source (`(a, b) => ...` returning a
number), recast as "the comparator result is not positive": tokens on the
same visual line (y within 5) order by x ascending, otherwise by y
descending. -/
def jsLe (a b : Tok) : Bool :=
  if |a.y - b.y| < 5 then decide (a.x ≤ b.x) else decide (b.y ≤ a.y)

/-- The single-column sort `items.sort(comparator)`, modelled as a stable
merge sort (JavaScript's sort is stable). -/
def sortReading (items : List Tok) : List Tok := items.mergeSort jsLe

/-- `assignToColumns` from extract-script.mjs, as used on multi-column pages:
each token is paired with the index of the first column band containing its
horizontal center (index 0 when none does).  (The source's early return for
at most one column is handled at the call site in `createReadingOrder`.) -/
def assignToColumns (items : List Tok) (cols : List Column) : List (Tok × ℕ) :=
  items.map (fun t =>
    let c := t.x + t.width / 2
    (t, (cols.findIdx? (fun col => decide (col.startX ≤ c ∧ c ≤ col.endX))).getD 0))

/-- `Math.round(item.y / 5) * 5`, the 5-unit y band of a token. -/
def roundedY5 (t : Tok) : ℤ := (round (t.y / 5)) * 5

/-- `createReadingOrder` from extract-script.mjs: single-column pages are
sorted by the reading-order comparator; multi-column pages are grouped per
column, sorted per column, and merged by descending 5-unit y bands. -/
def createReadingOrder (items : List Tok) (cols : List Column) : List Tok :=
  if cols.length ≤ 1 then sortReading items
  else
    let assigned := assignToColumns items cols
    let groups := (List.range cols.length).map (fun i =>
      (assigned.filter (fun p => decide (p.2 = i))).mergeSort (fun a b => jsLe a.1 b.1))
    let ys := ((assigned.map (fun p => roundedY5 p.1)).toFinset.sort (· ≤ ·)).reverse
    ((ys.map (fun yPos =>
      (groups.map (fun g =>
        g.filter (fun p => decide (|roundedY5 p.1 - yPos| < 2)))).flatten)).flatten).map
      (fun p => p.1)

/-- The specification's description of the single-column order: sort by y
descending (`a` before `b` when `a.y > b.y`), tie-broken by x ascending for
tokens whose y values differ by less than 5 units. -/
def specLineLe (a b : Tok) : Bool :=
  if |a.y - b.y| < 5 then decide (a.x ≤ b.x) else decide (b.y < a.y)

/-- Sorting by the specification's `(-y, x)`-with-tolerance key. -/
def specSortSingleColumn (items : List Tok) : List Tok :=
  items.mergeSort specLineLe

theorem jsLe_eq_specLineLe : jsLe = specLineLe := by
  funext a b
  unfold jsLe specLineLe
  by_cases h : |a.y - b.y| < 5
  · rw [if_pos h, if_pos h]
  · rw [if_neg h, if_neg h]
    have hne : b.y ≠ a.y := by
      intro he
      apply h
      rw [he]
      simp
    by_cases hba : b.y ≤ a.y
    · rw [decide_eq_true hba, decide_eq_true (lt_of_le_of_ne hba hne)]
    · rw [decide_eq_false hba, decide_eq_false (fun hlt => hba (le_of_lt hlt))]

/-- C7: on a page with at most one detected column, the Reading-Order
Sequencer is exactly the stable sort of the tokens by y descending with ties
(y within 5 units) broken by x ascending. -/
theorem createReadingOrder_single_column (items : List Tok) (cols : List Column)
    (h : cols.length ≤ 1) :
    createReadingOrder items cols = specSortSingleColumn items := by
  unfold createReadingOrder
  rw [if_pos h]
  unfold sortReading specSortSingleColumn
  rw [jsLe_eq_specLineLe]

/-- Concrete tokens for the C7 witness: two on one visual line (y 30 and 32),
one on a lower line. -/
def readingOrderWitnessItems : List Tok :=
  [mkTok 10 r"below", mkTok 30 r"right", mkTok 32 r"left"]

/-- Witness for `createReadingOrder_single_column` with an empty column
list. -/
theorem createReadingOrder_single_column_witness :
    ([] : List Column).length ≤ 1 ∧
    createReadingOrder readingOrderWitnessItems [] =
      specSortSingleColumn readingOrderWitnessItems :=
  ⟨by decide,
   createReadingOrder_single_column readingOrderWitnessItems [] (by decide)⟩

/- ## Document structure (`processDocumentStructure`, reader page.tsx 197-317) -/

/-- A structured content item (the `StructuredContent` union of the reader). -/
inductive SC where
  | heading (text : String) (level : ℕ) (fontSize : ℚ) (pageNumber : ℕ)
  | paragraph (text : String) (pageNumber : ℕ)
  | table (t : Table) (pageNumber : ℕ)
  | figure (f : Figure) (pageNumber : ℕ)
  | equation (e : Equation) (idx : ℕ) (pageNumber : ℕ)
  deriving DecidableEq

/-- Per-page data consumed by `processDocumentStructure`. -/
structure PageData where
  pageNumber : ℕ
  items : List Tok
  hasTable : Bool
  table : Option Table
  figures : List Figure
  equations : List Equation
  deriving DecidableEq

/-- Document-level data consumed by `processDocumentStructure`. -/
structure DocumentData where
  page_count : ℕ
  isScanned : Bool
  textLength : ℕ
  body_font_size : ℚ
  maxFontSize : ℚ
  pages : List PageData
  deriving DecidableEq

/-- The scanned-PDF notice paragraph text. -/
def scannedNotice : String :=
  "⚠️ This is a scanned PDF. Vision model processing needed for full accessibility."

/-- The paragraph flush guarded by `if (currentText)` (before a heading). -/
def flushA (cur : String) (pn : ℕ) : List SC :=
  if cur = "" then [] else [SC.paragraph (jsTrim cur) pn]

/-- The paragraph flush guarded by `if (currentText.trim())` (on a vertical
gap, at the last item, and after the loop). -/
def flushB (cur : String) (pn : ℕ) : List SC :=
  if jsTrim cur = "" then [] else [SC.paragraph (jsTrim cur) pn]

/-- The per-page loop of `processDocumentStructure`: walk the sorted items
with the accumulated paragraph text.  A token with empty trimmed text is
skipped (but still acts as `nextItem` for its predecessor); a token with
`fontSize > body_font_size` and trimmed length above 3 flushes the open
paragraph and emits a Heading (the call site passes `data.maxFontSize` as the
`page_width` argument of `determineHeadingLevel`); any other token is
accumulated, and the paragraph is flushed when there is no next item or the
next item is more than 15 units away vertically. -/
def scanItems (bf mf : ℚ) (pn : ℕ) : List Tok → String → List SC
  | [], cur => flushB cur pn
  | item :: rest, cur =>
    let text := jsTrim item.text
    if text = "" then scanItems bf mf pn rest cur
    else if bf < item.fontSize ∧ 3 < text.length then
      flushA cur pn ++
        SC.heading text (determineHeadingLevel item bf mf) item.fontSize pn ::
        scanItems bf mf pn rest ""
    else
      let cur2 := cur ++ (if cur = "" then "" else " ") ++ text
      match rest with
      | [] => flushB cur2 pn
      | next :: _ =>
          if 15 < |next.y - item.y| then
            flushB cur2 pn ++ scanItems bf mf pn rest ""
          else scanItems bf mf pn rest cur2

/-- One page's structured content: paragraphs and headings from the sorted
items, then the table (when `hasTable` and the table is non-null), then the
figures, then the equations with their indices. -/
def pageStructured (bf mf : ℚ) (p : PageData) : List SC :=
  scanItems bf mf p.pageNumber (sortReading p.items) "" ++
  (if p.hasTable then
    (match p.table with
     | some t => [SC.table t p.pageNumber]
     | none => [])
   else []) ++
  p.figures.map (fun f => SC.figure f p.pageNumber) ++
  p.equations.enum.map (fun q => SC.equation q.2 q.1 p.pageNumber)

/-- `processDocumentStructure` from the reader page: a scanned document
yields exactly the scanned-notice paragraph (page number 0); otherwise the
pages' structured content is concatenated in order. -/
def processDocumentStructure (d : DocumentData) : List SC :=
  if d.isScanned then [SC.paragraph scannedNotice 0]
  else (d.pages.map (pageStructured d.body_font_size d.maxFontSize)).flatten

/-- The `isScanned` classification of the analyze route:
`totalTextLength < 100 || totalTextLength / page_count < 20`. -/
def computeIsScanned (total pages : ℕ) : Bool :=
  decide (total < 100) || decide ((total : ℚ) / (pages : ℚ) < 20)

/-- C9: a 1-page document whose total extracted text length is 40 is
classified as scanned, and its structured content is exactly the
scanned-notice paragraph -- no table, figure or equation item appears. -/
theorem scanned_short_document (d : DocumentData)
    (h40 : d.textLength = 40) (h1 : d.page_count = 1)
    (hsc : d.isScanned = computeIsScanned d.textLength d.page_count) :
    d.isScanned = true ∧
      processDocumentStructure d = [SC.paragraph scannedNotice 0] := by
  have hcomp : computeIsScanned d.textLength d.page_count = true := by
    rw [h40, h1]
    with_unfolding_all rfl
  have hb : d.isScanned = true := hsc.trans hcomp
  exact ⟨hb, by simp [processDocumentStructure, hb]⟩

/-- A concrete 1-page scanned document for the C9 witness. -/
def scannedWitnessDoc : DocumentData :=
  { page_count := 1, isScanned := true, textLength := 40, body_font_size := 12,
    maxFontSize := 14,
    pages := [{ pageNumber := 1, items := [], hasTable := false, table := none,
                figures := [], equations := [] }] }

/-- Witness for `scanned_short_document`. -/
theorem scanned_short_document_witness :
    (scannedWitnessDoc.textLength = 40 ∧ scannedWitnessDoc.page_count = 1 ∧
      scannedWitnessDoc.isScanned =
        computeIsScanned scannedWitnessDoc.textLength scannedWitnessDoc.page_count) ∧
    (scannedWitnessDoc.isScanned = true ∧
      processDocumentStructure scannedWitnessDoc =
        [SC.paragraph scannedNotice 0]) :=
  ⟨⟨rfl, rfl, by with_unfolding_all rfl⟩,
   scanned_short_document scannedWitnessDoc rfl rfl (by with_unfolding_all rfl)⟩

/- ## Trim fixpoint lemmas (for the C2 round-trip proof) -/

/-- Left trim: drop leading whitespace. -/
def trimL (l : List Char) : List Char := l.dropWhile isJsWs

/-- Right trim: drop trailing whitespace. -/
def trimR (l : List Char) : List Char := (l.reverse.dropWhile isJsWs).reverse

theorem jsTrimData_eq_trims (l : List Char) : jsTrimData l = trimR (trimL l) := rfl

theorem trimL_length_le (l : List Char) : (trimL l).length ≤ l.length :=
  (List.dropWhile_suffix isJsWs).sublist.length_le

theorem trimR_length_le (l : List Char) : (trimR l).length ≤ l.length := by
  unfold trimR
  rw [List.length_reverse]
  calc (l.reverse.dropWhile isJsWs).length ≤ l.reverse.length :=
        (List.dropWhile_suffix isJsWs).sublist.length_le
    _ = l.length := List.length_reverse l

theorem trimL_eq_of_fix {l : List Char} (h : jsTrimData l = l) : trimL l = l := by
  have h1 : l.length ≤ (trimL l).length := by
    calc l.length = (jsTrimData l).length := by rw [h]
      _ = (trimR (trimL l)).length := rfl
      _ ≤ (trimL l).length := trimR_length_le _
  exact (List.dropWhile_suffix isJsWs).sublist.eq_of_length
    (Nat.le_antisymm (trimL_length_le l) h1)

theorem trimR_eq_of_fix {l : List Char} (h : jsTrimData l = l) : trimR l = l := by
  calc trimR l = trimR (trimL l) := by rw [trimL_eq_of_fix h]
    _ = jsTrimData l := rfl
    _ = l := h

theorem dropWhile_head_false (p : Char → Bool) (l : List Char) :
    ∀ c r, l.dropWhile p = c :: r → p c = false := by
  induction l with
  | nil => intro c r h; exact absurd h (by simp)
  | cons a t ih =>
      intro c r h
      rw [List.dropWhile_cons] at h
      by_cases hp : p a = true
      · rw [if_pos hp] at h
        exact ih c r h
      · rw [if_neg hp] at h
        cases h
        simpa using hp

theorem dropWhile_idem (p : Char → Bool) (l : List Char) :
    (l.dropWhile p).dropWhile p = l.dropWhile p := by
  cases h : l.dropWhile p with
  | nil => rfl
  | cons c r =>
      rw [List.dropWhile_cons, if_neg]
      rw [dropWhile_head_false p l c r h]
      simp

theorem headNonWs_of_fix {c : Char} {r : List Char}
    (h : jsTrimData (c :: r) = c :: r) : isJsWs c = false := by
  have h1 : (c :: r).dropWhile isJsWs = c :: r := trimL_eq_of_fix h
  rw [List.dropWhile_cons] at h1
  by_cases hp : isJsWs c = true
  · rw [if_pos hp] at h1
    have hle := (List.dropWhile_suffix (l := r) isJsWs).sublist.length_le
    have := congrArg List.length h1
    simp only [List.length_cons] at this
    omega
  · simpa using hp

theorem revDrop_of_fix {l : List Char} (h : jsTrimData l = l) :
    l.reverse.dropWhile isJsWs = l.reverse := by
  have h2 : (l.reverse.dropWhile isJsWs).reverse = l := trimR_eq_of_fix h
  have h3 := congrArg List.reverse h2
  simpa using h3

theorem trimR_append {x y : List Char}
    (hy : y.reverse.dropWhile isJsWs ≠ []) :
    trimR (x ++ y) = x ++ trimR y := by
  unfold trimR
  rw [List.reverse_append, List.dropWhile_append,
    if_neg (by simpa [List.isEmpty_iff] using hy)]
  simp [List.reverse_append]

theorem trimR_prefix (x : List Char) : trimR x <+: x := by
  have h := List.dropWhile_suffix (l := x.reverse) isJsWs
  have h2 := List.reverse_prefix.mpr h
  rw [List.reverse_reverse] at h2
  exact h2

theorem jsTrimData_idem (l : List Char) :
    jsTrimData (jsTrimData l) = jsTrimData l := by
  show trimR (trimL (trimR (trimL l))) = trimR (trimL l)
  have h1 : trimL (trimR (trimL l)) = trimR (trimL l) := by
    cases htr : trimR (trimL l) with
    | nil => rfl
    | cons c r =>
        obtain ⟨t, ht⟩ := trimR_prefix (trimL l)
        rw [htr] at ht
        have hc : isJsWs c = false := by
          apply dropWhile_head_false isJsWs l c (r ++ t)
          show trimL l = c :: (r ++ t)
          rw [← ht]
          simp
        unfold trimL
        rw [List.dropWhile_cons, if_neg (by simp [hc])]
  rw [h1]
  unfold trimR
  rw [List.reverse_reverse, dropWhile_idem]

theorem str_ne_empty_iff (s : String) : s ≠ "" ↔ s.data ≠ [] := by
  constructor
  · intro h hd
    exact h (String.ext hd)
  · intro h he
    apply h
    rw [he]

theorem jsTrim_idem (s : String) : jsTrim (jsTrim s) = jsTrim s := by
  unfold jsTrim
  exact congrArg String.mk (jsTrimData_idem s.data)

theorem jsTrim_combine {a b : String}
    (ha : jsTrim a = a) (hna : a ≠ "") (hb : jsTrim b = b) (hnb : b ≠ "") :
    jsTrim (a ++ " " ++ b) = a ++ " " ++ b := by
  have had : jsTrimData a.data = a.data := congrArg String.data ha
  have hbd : jsTrimData b.data = b.data := congrArg String.data hb
  have hnad : a.data ≠ [] := (str_ne_empty_iff a).mp hna
  have hnbd : b.data ≠ [] := (str_ne_empty_iff b).mp hnb
  apply String.ext
  show jsTrimData (a ++ " " ++ b).data = (a ++ " " ++ b).data
  have hdata : (a ++ " " ++ b).data = a.data ++ ' ' :: b.data := by
    rw [String.data_append, String.data_append]
    simp
  rw [hdata]
  obtain ⟨c, r, hcr⟩ : ∃ c r, a.data = c :: r := by
    cases hd : a.data with
    | nil => exact absurd hd hnad
    | cons c r => exact ⟨c, r, rfl⟩
  have hL : trimL (a.data ++ ' ' :: b.data) = a.data ++ ' ' :: b.data := by
    rw [hcr]
    unfold trimL
    rw [List.cons_append, List.dropWhile_cons,
      if_neg (by simp [headNonWs_of_fix (hcr ▸ had)])]
  have hrne : b.data.reverse.dropWhile isJsWs ≠ [] := by
    rw [revDrop_of_fix hbd]
    simpa using hnbd
  show trimR (trimL (a.data ++ ' ' :: b.data)) = _
  rw [hL]
  have hsplit : a.data ++ ' ' :: b.data = (a.data ++ [' ']) ++ b.data := by simp
  rw [hsplit, trimR_append hrne, trimR_eq_of_fix hbd]

/- ## The C2 round-trip: paragraph/heading texts versus token texts -/

/-- Space-aware concatenation: the empty string is an identity, otherwise a
single space is inserted. -/
def combineSp (a b : String) : String :=
  if a = "" then b else if b = "" then a else a ++ " " ++ b

/-- Fold of `combineSp` over a list of strings. -/
def joinSp (l : List String) : String := l.foldr combineSp ""

/-- The text fields of the paragraph and heading items, in order. -/
def parHeadTexts (l : List SC) : List String :=
  l.filterMap (fun s =>
    match s with
    | SC.heading t _ _ _ => some t
    | SC.paragraph t _ => some t
    | _ => none)

/-- The trimmed, nonempty token texts, in order. -/
def tokTexts (l : List Tok) : List String :=
  (l.map (fun t => jsTrim t.text)).filter (fun s => decide (s ≠ ""))

theorem sp_append_ne (a b : String) : a ++ " " ++ b ≠ "" := by
  rw [str_ne_empty_iff, String.data_append, String.data_append]
  have hsp : (" " : String).data = [' '] := rfl
  rw [hsp]
  simp

theorem combineSp_empty_left (b : String) : combineSp "" b = b := by
  simp [combineSp]

theorem combineSp_empty_right (a : String) : combineSp a "" = a := by
  by_cases h : a = "" <;> simp [combineSp, h]

theorem sp_append_ne' (a b : String) : a ++ (" " ++ b) ≠ "" := by
  rw [← String.append_assoc]
  exact sp_append_ne a b

theorem combineSp_assoc (a b c : String) :
    combineSp (combineSp a b) c = combineSp a (combineSp b c) := by
  by_cases ha : a = "" <;> by_cases hb : b = "" <;> by_cases hc : c = "" <;>
    simp [combineSp, ha, hb, hc, sp_append_ne, sp_append_ne', String.append_assoc]

theorem joinSp_nil : joinSp [] = "" := rfl

theorem joinSp_cons (x : String) (l : List String) :
    joinSp (x :: l) = combineSp x (joinSp l) := rfl

theorem joinSp_append (l1 l2 : List String) :
    joinSp (l1 ++ l2) = combineSp (joinSp l1) (joinSp l2) := by
  induction l1 with
  | nil => rw [List.nil_append, joinSp_nil, combineSp_empty_left]
  | cons x l ih =>
      rw [List.cons_append, joinSp_cons, ih, joinSp_cons, combineSp_assoc]

theorem parHeadTexts_append (l1 l2 : List SC) :
    parHeadTexts (l1 ++ l2) = parHeadTexts l1 ++ parHeadTexts l2 :=
  List.filterMap_append l1 l2 _

theorem parHeadTexts_figures (fs : List Figure) (pn : ℕ) :
    parHeadTexts (fs.map (fun f => SC.figure f pn)) = [] := by
  induction fs with
  | nil => rfl
  | cons f t ih => exact ih

theorem parHeadTexts_equations (es : List Equation) (pn : ℕ) :
    ∀ k : ℕ, parHeadTexts ((es.enumFrom k).map
      (fun q => SC.equation q.2 q.1 pn)) = [] := by
  induction es with
  | nil => intro k; rfl
  | cons e t ih => intro k; exact ih (k + 1)

theorem parHeadTexts_tablePart (p : PageData) :
    parHeadTexts (if p.hasTable then
      (match p.table with
       | some t => [SC.table t p.pageNumber]
       | none => [])
     else []) = [] := by
  cases h : p.hasTable <;> cases ht : p.table <;> simp [parHeadTexts]

theorem tokTexts_cons_empty {item : Tok} (rest : List Tok)
    (h : jsTrim item.text = "") : tokTexts (item :: rest) = tokTexts rest := by
  simp [tokTexts, h]

theorem tokTexts_cons_ne {item : Tok} (rest : List Tok)
    (h : jsTrim item.text ≠ "") :
    tokTexts (item :: rest) = jsTrim item.text :: tokTexts rest := by
  simp [tokTexts, h]

theorem joinSp_flushA (cur : String) (pn : ℕ)
    (hcur : cur = "" ∨ (jsTrim cur = cur ∧ cur ≠ "")) :
    joinSp (parHeadTexts (flushA cur pn)) = cur := by
  rcases hcur with h | ⟨hfix, hne⟩
  · subst h
    rfl
  · rw [flushA, if_neg hne]
    show combineSp (jsTrim cur) "" = cur
    rw [combineSp_empty_right, hfix]

theorem joinSp_flushB (cur : String) (pn : ℕ)
    (hcur : cur = "" ∨ (jsTrim cur = cur ∧ cur ≠ "")) :
    joinSp (parHeadTexts (flushB cur pn)) = cur := by
  rcases hcur with h | ⟨hfix, hne⟩
  · subst h
    rfl
  · rw [flushB, if_neg (by rw [hfix]; exact hne)]
    show combineSp (jsTrim cur) "" = cur
    rw [combineSp_empty_right, hfix]

theorem scanItems_texts (bf mf : ℚ) (pn : ℕ) :
    ∀ (l : List Tok) (cur : String),
      (cur = "" ∨ (jsTrim cur = cur ∧ cur ≠ "")) →
      joinSp (parHeadTexts (scanItems bf mf pn l cur)) =
        combineSp cur (joinSp (tokTexts l)) := by
  intro l
  induction l with
  | nil =>
      intro cur hcur
      show joinSp (parHeadTexts (flushB cur pn)) = combineSp cur (joinSp (tokTexts []))
      rw [joinSp_flushB cur pn hcur]
      show cur = combineSp cur ""
      rw [combineSp_empty_right]
  | cons item rest ih =>
      intro cur hcur
      by_cases htxt : jsTrim item.text = ""
      · have hstep : scanItems bf mf pn (item :: rest) cur =
            scanItems bf mf pn rest cur := by
          simp only [scanItems]
          rw [if_pos htxt]
        rw [hstep, ih cur hcur, tokTexts_cons_empty rest htxt]
      · have htfix : jsTrim (jsTrim item.text) = jsTrim item.text :=
          jsTrim_idem item.text
        by_cases hhead : bf < item.fontSize ∧ 3 < (jsTrim item.text).length
        · have hstep : scanItems bf mf pn (item :: rest) cur =
              flushA cur pn ++
                SC.heading (jsTrim item.text)
                  (determineHeadingLevel item bf mf) item.fontSize pn ::
                scanItems bf mf pn rest "" := by
            simp only [scanItems]
            rw [if_neg htxt, if_pos hhead]
          rw [hstep, parHeadTexts_append]
          have hph : parHeadTexts
              (SC.heading (jsTrim item.text)
                 (determineHeadingLevel item bf mf) item.fontSize pn ::
               scanItems bf mf pn rest "") =
              jsTrim item.text :: parHeadTexts (scanItems bf mf pn rest "") := rfl
          rw [hph, joinSp_append, joinSp_flushA cur pn hcur, joinSp_cons,
            ih "" (Or.inl rfl), combineSp_empty_left,
            tokTexts_cons_ne rest htxt, joinSp_cons]
        · -- accumulation branch
          have hc2 : cur ++ (if cur = "" then "" else " ") ++ jsTrim item.text =
              combineSp cur (jsTrim item.text) := by
            rcases hcur with h | ⟨_, hne⟩
            · subst h
              rw [if_pos rfl, combineSp_empty_left, String.empty_append,
                String.empty_append]
            · rw [if_neg hne, combineSp, if_neg hne, if_neg htxt]
          have hinv2 : jsTrim (combineSp cur (jsTrim item.text)) =
                combineSp cur (jsTrim item.text) ∧
              combineSp cur (jsTrim item.text) ≠ "" := by
            rcases hcur with h | ⟨hfix, hne⟩
            · subst h
              rw [combineSp_empty_left]
              exact ⟨htfix, htxt⟩
            · rw [combineSp, if_neg hne, if_neg htxt]
              exact ⟨jsTrim_combine hfix hne htfix htxt, sp_append_ne _ _⟩
          cases rest with
          | nil =>
              have hstep : scanItems bf mf pn [item] cur =
                  flushB (cur ++ (if cur = "" then "" else " ") ++
                    jsTrim item.text) pn := by
                simp only [scanItems]
                rw [if_neg htxt, if_neg hhead]
              rw [hstep, hc2, joinSp_flushB _ pn (Or.inr hinv2),
                tokTexts_cons_ne [] htxt]
              show combineSp cur (jsTrim item.text) =
                combineSp cur (combineSp (jsTrim item.text) "")
              rw [combineSp_empty_right]
          | cons next rrest =>
              by_cases hgap : 15 < |next.y - item.y|
              · have hstep : scanItems bf mf pn (item :: next :: rrest) cur =
                    flushB (cur ++ (if cur = "" then "" else " ") ++
                      jsTrim item.text) pn ++
                    scanItems bf mf pn (next :: rrest) "" := by
                  simp only [scanItems]
                  rw [if_neg htxt, if_neg hhead, if_pos hgap]
                rw [hstep, parHeadTexts_append, joinSp_append, hc2,
                  joinSp_flushB _ pn (Or.inr hinv2), ih "" (Or.inl rfl),
                  combineSp_empty_left, tokTexts_cons_ne _ htxt, joinSp_cons,
                  combineSp_assoc]
              · have hstep : scanItems bf mf pn (item :: next :: rrest) cur =
                    scanItems bf mf pn (next :: rrest)
                      (cur ++ (if cur = "" then "" else " ") ++
                        jsTrim item.text) := by
                  simp only [scanItems]
                  rw [if_neg htxt, if_neg hhead, if_neg hgap]
                rw [hstep, hc2, ih _ (Or.inr hinv2),
                  tokTexts_cons_ne _ htxt, joinSp_cons, combineSp_assoc]

/-- C2: on every page (of a non-scanned document), joining the text fields of
the page's paragraph and heading items with single spaces reproduces exactly
the trimmed nonempty token texts of the page, in reading order, joined with
single spaces: no token text is lost and none is duplicated.  The table,
figure and equation items appended after the flowing text carry no text
field. -/
theorem pageStructured_round_trip (bf mf : ℚ) (p : PageData) :
    joinSp (parHeadTexts (pageStructured bf mf p)) =
      joinSp (tokTexts (sortReading p.items)) := by
  unfold pageStructured
  rw [parHeadTexts_append, parHeadTexts_append, parHeadTexts_append,
    parHeadTexts_tablePart, parHeadTexts_figures]
  have heq : parHeadTexts (p.equations.enum.map
      (fun q => SC.equation q.2 q.1 p.pageNumber)) = [] :=
    parHeadTexts_equations p.equations p.pageNumber 0
  rw [heq]
  rw [List.append_nil, List.append_nil, List.append_nil]
  rw [scanItems_texts bf mf p.pageNumber (sortReading p.items) "" (Or.inl rfl),
    combineSp_empty_left]

/- ## Body font size (analyze route.ts lines 156-172) -/

/-- `Math.round(item.fontSize * 10) / 10`, the one-decimal rounding applied
to each token's font size before the statistics are accumulated. -/
def roundSize (q : ℚ) : ℚ := ((round (q * 10) : ℤ) : ℚ) / 10

/-- Update of the `font_stats` map: add `len` to the entry of key `s`,
inserting the key at the end on first occurrence (JavaScript `Map` keys
iterate in insertion order). -/
def addStat : List (ℚ × ℕ) → ℚ → ℕ → List (ℚ × ℕ)
  | [], s, len => [(s, len)]
  | (k, v) :: rest, s, len =>
      if k = s then (k, v + len) :: rest else (k, v) :: addStat rest s len

/-- `font_stats.get(s) ?? 0`. -/
def statLookup : List (ℚ × ℕ) → ℚ → ℕ
  | [], _ => 0
  | (k, v) :: rest, s => if k = s then v else statLookup rest s

/-- One token's contribution to the statistics: skipped unless its text
length and rounded size are both positive. -/
def statStep (m : List (ℚ × ℕ)) (t : Tok) : List (ℚ × ℕ) :=
  if 0 < t.text.length ∧ 0 < roundSize t.fontSize then
    addStat m (roundSize t.fontSize) t.text.length
  else m

/-- The `font_stats` map: font size (rounded to one decimal) to total
character count, accumulated over the tokens in order. -/
def fontStats (toks : List Tok) : List (ℚ × ℕ) := toks.foldl statStep []

/-- The keys of a stats map, in insertion order
(`Array.from(font_stats.keys())`). -/
def statKeys (m : List (ℚ × ℕ)) : List ℚ := m.map (fun p => p.1)

/-- The `reduce` of the analyze route over the key array: keep the
accumulator only when its total strictly exceeds the challenger's, so ties
go to the later key. -/
def pickMax (f : ℚ → ℕ) : List ℚ → Option ℚ
  | [] => none
  | a :: ks => some (ks.foldl (fun acc b => if f b < f acc then acc else b) a)

/-- `body_font_size` as computed by the analyze route (default 12 when no
token qualifies). -/
def bodyFontSize (toks : List Tok) : ℚ :=
  match statKeys (fontStats toks) with
  | [] => 12
  | a :: ks =>
      ks.foldl (fun acc b =>
        if statLookup (fontStats toks) b < statLookup (fontStats toks) acc
        then acc else b) a

/-- The (size, length) pair a token contributes, if any. -/
def sizeLenOf (t : Tok) : Option (ℚ × ℕ) :=
  if 0 < t.text.length ∧ 0 < roundSize t.fontSize then
    some (roundSize t.fontSize, t.text.length)
  else none

/-- The order-independent total character count of rounded size `s`. -/
def contribOf (toks : List Tok) (s : ℚ) : ℕ :=
  ((((toks.filterMap sizeLenOf).filter (fun p => decide (p.1 = s))).map
    (fun p => p.2))).sum

theorem statLookup_addStat (s : ℚ) (len : ℕ) (s' : ℚ) :
    ∀ m : List (ℚ × ℕ),
      statLookup (addStat m s len) s' =
        statLookup m s' + (if s = s' then len else 0) := by
  intro m
  induction m with
  | nil =>
      show statLookup [(s, len)] s' = statLookup [] s' + _
      rw [statLookup, statLookup]
      by_cases h : s = s'
      · rw [if_pos h, if_pos h, Nat.zero_add]
      · rw [if_neg h, if_neg h]
        rfl
  | cons p rest ih =>
      rcases p with ⟨k, v⟩
      by_cases hks : k = s
      · rw [addStat, if_pos hks]
        rw [statLookup, statLookup]
        by_cases hk' : k = s'
        · have hss : s = s' := by rw [← hks]; exact hk'
          rw [if_pos hk', if_pos hk', if_pos hss]
        · have hss : ¬ s = s' := fun h => hk' (by rw [hks, h])
          rw [if_neg hk', if_neg hk', if_neg hss, Nat.add_zero]
      · rw [addStat, if_neg hks]
        rw [statLookup, statLookup]
        by_cases hk' : k = s'
        · have hss : ¬ s = s' := fun h => hks (by rw [h, ← hk'])
          rw [if_pos hk', if_pos hk', if_neg hss, Nat.add_zero]
        · rw [if_neg hk', if_neg hk']
          exact ih

theorem mem_statKeys_addStat (s : ℚ) (len : ℕ) (s' : ℚ) :
    ∀ m : List (ℚ × ℕ),
      s' ∈ statKeys (addStat m s len) ↔ s' ∈ statKeys m ∨ s' = s := by
  intro m
  induction m with
  | nil =>
      show s' ∈ [s] ↔ s' ∈ ([] : List ℚ) ∨ s' = s
      simp
  | cons p rest ih =>
      rcases p with ⟨k, v⟩
      by_cases hks : k = s
      · rw [addStat, if_pos hks]
        show s' ∈ k :: statKeys rest ↔ s' ∈ k :: statKeys rest ∨ s' = s
        constructor
        · exact Or.inl
        · rintro (h | h)
          · exact h
          · rw [h, ← hks]
            exact List.mem_cons_self _ _
      · rw [addStat, if_neg hks]
        show s' ∈ k :: statKeys (addStat rest s len) ↔
          s' ∈ k :: statKeys rest ∨ s' = s
        rw [List.mem_cons, List.mem_cons, ih]
        tauto

theorem nodup_statKeys_addStat (s : ℚ) (len : ℕ) :
    ∀ m : List (ℚ × ℕ), (statKeys m).Nodup →
      (statKeys (addStat m s len)).Nodup := by
  intro m
  induction m with
  | nil => intro _; simp [addStat, statKeys]
  | cons p rest ih =>
      rcases p with ⟨k, v⟩
      intro h
      rw [statKeys, List.map_cons, List.nodup_cons] at h
      by_cases hks : k = s
      · subst hks
        simpa [addStat, statKeys, List.nodup_cons] using h
      · rw [addStat, if_neg hks, statKeys, List.map_cons, List.nodup_cons]
        refine ⟨?_, ih h.2⟩
        intro hk
        rcases (mem_statKeys_addStat s len k rest).mp hk with hk' | hk'
        · exact h.1 hk'
        · exact hks hk'

theorem contribOf_cons_pos {t : Tok} (rest : List Tok) (s : ℚ)
    (hc : 0 < t.text.length ∧ 0 < roundSize t.fontSize) :
    contribOf (t :: rest) s =
      (if roundSize t.fontSize = s then t.text.length else 0) +
        contribOf rest s := by
  unfold contribOf
  have hs : sizeLenOf t = some (roundSize t.fontSize, t.text.length) := by
    rw [sizeLenOf, if_pos hc]
  simp only [List.filterMap_cons, hs, List.filter_cons]
  by_cases h : roundSize t.fontSize = s
  · rw [if_pos (by simpa using h), List.map_cons, List.sum_cons, if_pos h]
  · rw [if_neg (by simpa using h), if_neg h, Nat.zero_add]

theorem contribOf_cons_neg {t : Tok} (rest : List Tok) (s : ℚ)
    (hc : ¬ (0 < t.text.length ∧ 0 < roundSize t.fontSize)) :
    contribOf (t :: rest) s = contribOf rest s := by
  unfold contribOf
  have hs : sizeLenOf t = none := by
    rw [sizeLenOf, if_neg hc]
  simp only [List.filterMap_cons, hs]

theorem statLookup_foldl (toks : List Tok) :
    ∀ (m : List (ℚ × ℕ)) (s : ℚ),
      statLookup (toks.foldl statStep m) s = statLookup m s + contribOf toks s := by
  induction toks with
  | nil =>
      intro m s
      simp [contribOf]
  | cons t rest ih =>
      intro m s
      rw [List.foldl_cons]
      by_cases hc : 0 < t.text.length ∧ 0 < roundSize t.fontSize
      · rw [statStep, if_pos hc, ih, statLookup_addStat,
          contribOf_cons_pos rest s hc, Nat.add_assoc]
      · rw [statStep, if_neg hc, ih, contribOf_cons_neg rest s hc]

theorem mem_statKeys_foldl (toks : List Tok) :
    ∀ (m : List (ℚ × ℕ)) (s : ℚ),
      s ∈ statKeys (toks.foldl statStep m) ↔
        s ∈ statKeys m ∨ contribOf toks s ≠ 0 := by
  induction toks with
  | nil =>
      intro m s
      rw [List.foldl_nil]
      have h0 : contribOf [] s = 0 := rfl
      rw [h0]
      simp
  | cons t rest ih =>
      intro m s
      rw [List.foldl_cons]
      by_cases hc : 0 < t.text.length ∧ 0 < roundSize t.fontSize
      · rw [statStep, if_pos hc, ih, mem_statKeys_addStat,
          contribOf_cons_pos rest s hc]
        by_cases h : roundSize t.fontSize = s
        · rw [if_pos h]
          have hne : t.text.length + contribOf rest s ≠ 0 := by
            have hlen := hc.1
            omega
          constructor
          · rintro ((hm | _) | _)
            · exact Or.inl hm
            · exact Or.inr hne
            · exact Or.inr hne
          · rintro (hm | _)
            · exact Or.inl (Or.inl hm)
            · exact Or.inl (Or.inr h.symm)
        · rw [if_neg h, Nat.zero_add]
          constructor
          · rintro ((hm | he) | hC)
            · exact Or.inl hm
            · exact absurd he.symm h
            · exact Or.inr hC
          · rintro (hm | hC)
            · exact Or.inl (Or.inl hm)
            · exact Or.inr hC
      · rw [statStep, if_neg hc, ih, contribOf_cons_neg rest s hc]

theorem nodup_statKeys_fontStats (toks : List Tok) :
    (statKeys (fontStats toks)).Nodup := by
  suffices h : ∀ m : List (ℚ × ℕ), (statKeys m).Nodup →
      (statKeys (toks.foldl statStep m)).Nodup by
    exact h [] (by simp [statKeys])
  induction toks with
  | nil => intro m hm; simpa using hm
  | cons t rest ih =>
      intro m hm
      rw [List.foldl_cons]
      apply ih
      unfold statStep
      by_cases hc : 0 < t.text.length ∧ 0 < roundSize t.fontSize
      · rw [if_pos hc]
        exact nodup_statKeys_addStat _ _ m hm
      · rw [if_neg hc]
        exact hm

theorem foldl_pick (f : ℚ → ℕ) (k : ℚ) :
    ∀ (t : List ℚ) (acc : ℚ), t.Nodup →
      ((acc = k ∧ k ∉ t) ∨ (f acc < f k ∧ k ∈ t)) →
      (∀ j ∈ t, j ≠ k → f j < f k) →
      t.foldl (fun acc b => if f b < f acc then acc else b) acc = k := by
  intro t
  induction t with
  | nil =>
      intro acc _ hcase _
      rcases hcase with ⟨rfl, _⟩ | ⟨_, hk⟩
      · rfl
      · cases hk
  | cons b t' ih =>
      intro acc hnd hcase hdom
      rw [List.nodup_cons] at hnd
      rw [List.foldl_cons]
      rcases hcase with ⟨rfl, hknt⟩ | ⟨hlt, hkmem⟩
      · have hbk : b ≠ acc := fun h => hknt (h ▸ List.mem_cons_self b t')
        have hfb : f b < f acc := hdom b (List.mem_cons_self b t') hbk
        rw [if_pos hfb]
        exact ih acc hnd.2 (Or.inl ⟨rfl, fun h => hknt (List.mem_cons_of_mem b h)⟩)
          (fun j hj hjk => hdom j (List.mem_cons_of_mem b hj) hjk)
      · rcases List.mem_cons.mp hkmem with rfl | hk'
        · rw [if_neg (lt_asymm hlt)]
          exact ih k hnd.2 (Or.inl ⟨rfl, hnd.1⟩)
            (fun j hj hjk => hdom j (List.mem_cons_of_mem k hj) hjk)
        · have hbk : b ≠ k := fun h => hnd.1 (h ▸ hk')
          have hfb : f b < f k := hdom b (List.mem_cons_self b t') hbk
          by_cases hstep : f b < f acc
          · rw [if_pos hstep]
            exact ih acc hnd.2 (Or.inr ⟨hlt, hk'⟩)
              (fun j hj hjk => hdom j (List.mem_cons_of_mem b hj) hjk)
          · rw [if_neg hstep]
            exact ih b hnd.2 (Or.inr ⟨hfb, hk'⟩)
              (fun j hj hjk => hdom j (List.mem_cons_of_mem b hj) hjk)

theorem pickMax_unique (f : ℚ → ℕ) (ks : List ℚ) (hnd : ks.Nodup) (k : ℚ)
    (hk : k ∈ ks) (hdom : ∀ j ∈ ks, j ≠ k → f j < f k) :
    pickMax f ks = some k := by
  cases ks with
  | nil => cases hk
  | cons a t =>
      show some _ = some k
      congr 1
      rw [List.nodup_cons] at hnd
      rcases List.mem_cons.mp hk with rfl | hk'
      · exact foldl_pick f k t k hnd.2 (Or.inl ⟨rfl, hnd.1⟩)
          (fun j hj hjk => hdom j (List.mem_cons_of_mem k hj) hjk)
      · have hak : a ≠ k := fun h => hnd.1 (h ▸ hk')
        exact foldl_pick f k t a hnd.2
          (Or.inr ⟨hdom a (List.mem_cons_self a t) hak, hk'⟩)
          (fun j hj hjk => hdom j (List.mem_cons_of_mem a hj) hjk)

theorem bodyFontSize_eq_pick (toks : List Tok) :
    bodyFontSize toks =
      (pickMax (statLookup (fontStats toks)) (statKeys (fontStats toks))).getD 12 := by
  rcases h : statKeys (fontStats toks) with _ | ⟨a, ks⟩ <;>
    simp [bodyFontSize, pickMax, h]

theorem contribOf_perm {l1 l2 : List Tok} (hp : l1.Perm l2) (s : ℚ) :
    contribOf l1 s = contribOf l2 s :=
  List.Perm.sum_eq (((hp.filterMap sizeLenOf).filter _).map _)

/-- C3 (amended): the computed `bodyFontSize` is invariant under permutation
of the tokens whenever the total character count has a unique maximizing
rounded font size; with ties, the outcome depends on the insertion order
because the reduce keeps the later key on a tie. -/
theorem bodyFontSize_perm_invariant (l1 l2 : List Tok) (hp : l1.Perm l2)
    (k : ℚ) (hk : k ∈ statKeys (fontStats l1))
    (hdom : ∀ j ∈ statKeys (fontStats l1), j ≠ k →
      statLookup (fontStats l1) j < statLookup (fontStats l1) k) :
    bodyFontSize l1 = bodyFontSize l2 := by
  have hf : ∀ (l : List Tok) (s : ℚ),
      statLookup (fontStats l) s = contribOf l s := by
    intro l s
    have h := statLookup_foldl l [] s
    simpa [fontStats, statLookup] using h
  have hm : ∀ (l : List Tok) (s : ℚ),
      s ∈ statKeys (fontStats l) ↔ contribOf l s ≠ 0 := by
    intro l s
    have h := mem_statKeys_foldl l [] s
    simpa [fontStats, statKeys] using h
  have hc12 : ∀ s, contribOf l1 s = contribOf l2 s := contribOf_perm hp
  have h1 : bodyFontSize l1 = k := by
    rw [bodyFontSize_eq_pick,
      pickMax_unique _ _ (nodup_statKeys_fontStats l1) k hk hdom]
    rfl
  have hk2 : k ∈ statKeys (fontStats l2) := by
    rw [hm l2 k, ← hc12 k, ← hm l1 k]
    exact hk
  have hdom2 : ∀ j ∈ statKeys (fontStats l2), j ≠ k →
      statLookup (fontStats l2) j < statLookup (fontStats l2) k := by
    intro j hj hjk
    have hj1 : j ∈ statKeys (fontStats l1) := by
      rw [hm l1 j, hc12 j, ← hm l2 j]
      exact hj
    rw [hf l2 j, hf l2 k, ← hc12 j, ← hc12 k, ← hf l1 j, ← hf l1 k]
    exact hdom j hj1 hjk
  have h2 : bodyFontSize l2 = k := by
    rw [bodyFontSize_eq_pick,
      pickMax_unique _ _ (nodup_statKeys_fontStats l2) k hk2 hdom2]
    rfl
  rw [h1, h2]

/-- A token carrying only a font size and a text. -/
def fontTok (fs : ℚ) (text : String) : Tok :=
  { text := text, x := 0, y := 0, width := 0, height := 0, fontSize := fs,
    fontName := "" }

/-- C3 counterexample: two tokens whose sizes tie in total character count
(2 characters each).  Swapping them changes `bodyFontSize` from 12 to 10,
because the reduce hands ties to the later key of the insertion-ordered map,
so the selection is not invariant under permutation. -/
theorem bodyFontSize_order_dependent :
    (([fontTok 10 r"ab", fontTok 12 r"cd"]).Perm
      [fontTok 12 r"cd", fontTok 10 r"ab"]) ∧
    bodyFontSize [fontTok 10 r"ab", fontTok 12 r"cd"] ≠
      bodyFontSize [fontTok 12 r"cd", fontTok 10 r"ab"] :=
  ⟨List.Perm.swap _ _ _, by with_unfolding_all decide⟩

/-- Witness for `bodyFontSize_perm_invariant`: with a unique maximizer
(size 12 carries 3 characters against 2), both orders select 12. -/
theorem bodyFontSize_perm_invariant_witness :
    ((12 : ℚ) ∈ statKeys (fontStats [fontTok 10 r"ab", fontTok 12 r"cde"])) ∧
    bodyFontSize [fontTok 10 r"ab", fontTok 12 r"cde"] =
      bodyFontSize [fontTok 12 r"cde", fontTok 10 r"ab"] :=
  ⟨by with_unfolding_all decide,
   bodyFontSize_perm_invariant _ _ (List.Perm.swap _ _ _) 12
     (by with_unfolding_all decide) (by with_unfolding_all decide)⟩

/- ## Column Detector (`detectColumns`, extract-script.mjs lines 15-62) -/

/-- A running cluster of left-edge x values: `{center, positions, count}`. -/
structure Cluster where
  center : ℚ
  positions : List ℚ
  count : ℕ
  deriving DecidableEq

/-- Merging an x value into a cluster: push the position, bump the count and
recompute the center as the mean of the positions. -/
def mergedCluster (c : Cluster) (x : ℚ) : Cluster :=
  { center := (c.positions ++ [x]).sum / (((c.positions ++ [x]).length : ℕ) : ℚ),
    positions := c.positions ++ [x],
    count := c.count + 1 }

/-- A fresh one-member cluster. -/
def newCluster (x : ℚ) : Cluster :=
  { center := x, positions := [x], count := 1 }

/-- `clusters.find(c => Math.abs(c.center - x) < threshold)`, returning the
index of the first cluster within 40 units. -/
def findClusterIdx (x : ℚ) : List Cluster → Option ℕ
  | [] => none
  | c :: rest =>
      if |c.center - x| < 40 then some 0
      else (findClusterIdx x rest).map (fun i => i + 1)

/-- In-place update of the cluster at an index. -/
def mergeAtIdx (x : ℚ) : ℕ → List Cluster → List Cluster
  | _, [] => []
  | 0, c :: rest => mergedCluster c x :: rest
  | i + 1, c :: rest => c :: mergeAtIdx x i rest

/-- One step of the clustering loop of `detectColumns`: merge into the first
cluster within 40 units, else push a new cluster at the end. -/
def clusterStep (cs : List Cluster) (x : ℚ) : List Cluster :=
  match findClusterIdx x cs with
  | some i => mergeAtIdx x i cs
  | none => cs ++ [newCluster x]

/-- The unique left-edge x values of the substantial tokens (trimmed length
above 3 and width above 10), sorted ascending
(`[...new Set(xPositions)].sort((a, b) => a - b)`). -/
def uniqueXs (items : List Tok) : List ℚ :=
  ((items.filter (fun t =>
    decide (3 < (jsTrim t.text).length ∧ 10 < t.width))).map
      (fun t => t.x)).toFinset.sort (· ≤ ·)

/-- The clusters produced by the single clustering pass. -/
def clustersOf (items : List Tok) : List Cluster :=
  (uniqueXs items).foldl clusterStep []

/-- Stable sort of clusters by center (`sort((a, b) => a.center - b.center)`). -/
def sortClusters (cs : List Cluster) : List Cluster :=
  cs.mergeSort (fun a b => decide (a.center ≤ b.center))

/-- Column bands from the sorted significant clusters: each band runs from
`center - 20` to the midpoint with the next cluster (page width for the
last). -/
def mkColumns (w : ℚ) : List Cluster → List Column
  | [] => []
  | [c] => [{ startX := c.center - 20, endX := w, centerX := c.center }]
  | c :: c2 :: rest =>
      { startX := c.center - 20, endX := (c.center + c2.center) / 2,
        centerX := c.center } :: mkColumns w (c2 :: rest)

/-- `detectColumns` from extract-script.mjs. -/
def detectColumns (items : List Tok) (pageWidth : ℚ) : List Column :=
  if items = [] then []
  else mkColumns pageWidth
    (sortClusters ((clustersOf items).filter (fun c => decide (3 ≤ c.count))))

/-- First index of minimal distance to the cluster centers, with its
distance (the specification side's "nearest existing cluster"). -/
def nearestIdxAux (x : ℚ) : List Cluster → ℕ → Option (ℕ × ℚ)
  | [], _ => none
  | c :: rest, i =>
      match nearestIdxAux x rest (i + 1) with
      | none => some (i, |c.center - x|)
      | some (j, d) =>
          if |c.center - x| ≤ d then some (i, |c.center - x|) else some (j, d)

/-- The clustering step as claim C5 describes it: merge into the nearest
existing cluster when that cluster's center is within 40 units, recomputing
the running mean, else start a new cluster. -/
def specClusterStep (cs : List Cluster) (x : ℚ) : List Cluster :=
  match nearestIdxAux x cs 0 with
  | some (i, d) =>
      if d < 40 then mergeAtIdx x i cs else cs ++ [newCluster x]
  | none => cs ++ [newCluster x]

/-- The clustering pass of the claim. -/
def specClustersOf (items : List Tok) : List Cluster :=
  (uniqueXs items).foldl specClusterStep []

/-- Column detection as claim C5 describes it: nearest-cluster merging, then
the same discarding of clusters with fewer than 3 members and the same band
construction. -/
def specDetectColumns (items : List Tok) (pageWidth : ℚ) : List Column :=
  if items = [] then []
  else mkColumns pageWidth
    (sortClusters ((specClustersOf items).filter (fun c => decide (3 ≤ c.count))))

/-- Well-formedness of a cluster: nonempty positions whose mean is the
center. -/
def ClusterWF (c : Cluster) : Prop :=
  c.positions ≠ [] ∧ c.center = c.positions.sum / ((c.positions.length : ℕ) : ℚ)

/-- Invariant of the clustering fold over the ascending unique x values:
clusters are well-formed, all stored positions are below every remaining x,
and every cluster except the most recent lies at least 40 units below every
remaining x. -/
def ClustersInv (cs : List Cluster) (xs : List ℚ) : Prop :=
  (∀ c ∈ cs, ClusterWF c) ∧
  (∀ c ∈ cs, ∀ p ∈ c.positions, ∀ x ∈ xs, p < x) ∧
  (∀ c ∈ cs.dropLast, ∀ x ∈ xs, c.center + 40 ≤ x)

theorem sum_lt_length_mul {x : ℚ} :
    ∀ {l : List ℚ}, l ≠ [] → (∀ p ∈ l, p < x) → l.sum < (l.length : ℚ) * x := by
  intro l
  induction l with
  | nil => intro h; exact absurd rfl h
  | cons a t ih =>
      intro _ hlt
      rw [List.sum_cons, List.length_cons]
      cases t with
      | nil =>
          simpa using hlt a (List.mem_cons_self a [])
      | cons b t' =>
          have ht := ih (by simp) (fun p hp => hlt p (List.mem_cons_of_mem a hp))
          have ha := hlt a (List.mem_cons_self a _)
          push_cast
          push_cast at ht
          nlinarith [ht, ha]

theorem mean_lt {l : List ℚ} {x : ℚ} (hne : l ≠ []) (hlt : ∀ p ∈ l, p < x) :
    l.sum / ((l.length : ℕ) : ℚ) < x := by
  have hpos : (0 : ℚ) < ((l.length : ℕ) : ℚ) := by
    have := List.length_pos.mpr hne
    exact_mod_cast this
  rw [div_lt_iff₀ hpos]
  have := sum_lt_length_mul hne hlt
  linarith [this]

theorem findClusterIdx_append_last (x : ℚ) (L : Cluster) :
    ∀ cs0 : List Cluster, (∀ c ∈ cs0, ¬ |c.center - x| < 40) →
      findClusterIdx x (cs0 ++ [L]) =
        if |L.center - x| < 40 then some cs0.length else none := by
  intro cs0
  induction cs0 with
  | nil =>
      intro _
      by_cases h : |L.center - x| < 40 <;>
        simp [findClusterIdx, h]
  | cons c rest ih =>
      intro h0
      rw [List.cons_append, findClusterIdx,
        if_neg (h0 c (List.mem_cons_self c rest)),
        ih (fun c' hc' => h0 c' (List.mem_cons_of_mem c hc'))]
      by_cases h : |L.center - x| < 40 <;> simp [h]

theorem mergeAtIdx_append_last (x : ℚ) (L : Cluster) :
    ∀ cs0 : List Cluster,
      mergeAtIdx x cs0.length (cs0 ++ [L]) = cs0 ++ [mergedCluster L x] := by
  intro cs0
  induction cs0 with
  | nil => rfl
  | cons c rest ih =>
      rw [List.length_cons, List.cons_append, mergeAtIdx, ih, List.cons_append]

theorem nearestIdxAux_ge (x : ℚ) :
    ∀ cs : List Cluster, (∀ c ∈ cs, 40 ≤ |c.center - x|) → ∀ i : ℕ,
      nearestIdxAux x cs i = none ∨
        ∃ j d, nearestIdxAux x cs i = some (j, d) ∧ 40 ≤ d := by
  intro cs
  induction cs with
  | nil => intro _ i; exact Or.inl rfl
  | cons c rest ih =>
      intro h i
      have hc := h c (List.mem_cons_self c rest)
      rcases ih (fun c' hc' => h c' (List.mem_cons_of_mem c hc')) (i + 1) with
        hn | ⟨j, d, heq, hd⟩
      · refine Or.inr ⟨i, |c.center - x|, ?_, hc⟩
        simp only [nearestIdxAux, hn]
      · by_cases hcd : |c.center - x| ≤ d
        · refine Or.inr ⟨i, |c.center - x|, ?_, hc⟩
          simp only [nearestIdxAux, heq, if_pos hcd]
        · refine Or.inr ⟨j, d, ?_, hd⟩
          simp only [nearestIdxAux, heq, if_neg hcd]

theorem nearestIdxAux_last (x : ℚ) (L : Cluster) (hL : |L.center - x| < 40) :
    ∀ cs0 : List Cluster, (∀ c ∈ cs0, 40 ≤ |c.center - x|) → ∀ i : ℕ,
      nearestIdxAux x (cs0 ++ [L]) i = some (i + cs0.length, |L.center - x|) := by
  intro cs0
  induction cs0 with
  | nil =>
      intro _ i
      simp [nearestIdxAux]
  | cons c rest ih =>
      intro h i
      have hrec := ih (fun c' hc' => h c' (List.mem_cons_of_mem c hc')) (i + 1)
      have hc := h c (List.mem_cons_self c rest)
      have hnle : ¬ |c.center - x| ≤ |L.center - x| :=
        not_le.mpr (lt_of_lt_of_le hL hc)
      rw [List.cons_append]
      simp only [nearestIdxAux, hrec, if_neg hnle]
      rw [show i + 1 + rest.length = i + (c :: rest).length from by
        rw [List.length_cons]; omega]

theorem clusterStep_eq_spec (cs : List Cluster) (x : ℚ)
    (hwf : ∀ c ∈ cs, ClusterWF c)
    (hbelow : ∀ c ∈ cs, ∀ p ∈ c.positions, p < x)
    (hfar : ∀ c ∈ cs.dropLast, c.center + 40 ≤ x) :
    clusterStep cs x = specClusterStep cs x := by
  rcases List.eq_nil_or_concat cs with rfl | ⟨cs0, L, rfl⟩
  · rfl
  · rw [List.concat_eq_append] at hwf hbelow hfar ⊢
    have hdrop : (cs0 ++ [L]).dropLast = cs0 := List.dropLast_concat
    have hF1 : ∀ c ∈ cs0, 40 ≤ |c.center - x| := by
      intro c hc
      have h := hfar c (by rw [hdrop]; exact hc)
      rw [abs_sub_comm, abs_of_nonneg (by linarith)]
      linarith
    have hLlt : L.center < x := by
      have hwfL := hwf L (by simp)
      rw [hwfL.2]
      exact mean_lt hwfL.1 (fun p hp => hbelow L (by simp) p hp)
    have hfind : findClusterIdx x (cs0 ++ [L]) =
        if |L.center - x| < 40 then some cs0.length else none :=
      findClusterIdx_append_last x L cs0 (fun c hc => not_lt.mpr (hF1 c hc))
    by_cases hL : |L.center - x| < 40
    · have hnear := nearestIdxAux_last x L hL cs0 hF1 0
      rw [Nat.zero_add] at hnear
      simp only [clusterStep, specClusterStep, hfind, hnear, if_pos hL]
    · have h40 : ∀ c ∈ cs0 ++ [L], 40 ≤ |c.center - x| := by
        intro c hc
        rcases List.mem_append.mp hc with hc' | hc'
        · exact hF1 c hc'
        · rw [List.mem_singleton] at hc'
          subst hc'
          exact le_of_not_lt hL
      rcases nearestIdxAux_ge x (cs0 ++ [L]) h40 0 with hn | ⟨j, d, heq, hd⟩
      · simp only [clusterStep, specClusterStep, hfind, hn, if_neg hL]
      · simp only [clusterStep, specClusterStep, hfind, heq, if_neg hL,
          if_neg (not_lt.mpr hd)]

theorem clusterStep_inv (cs : List Cluster) (x : ℚ) (xs : List ℚ)
    (hxlt : ∀ x' ∈ xs, x < x')
    (hinv : ClustersInv cs (x :: xs)) :
    ClustersInv (clusterStep cs x) xs := by
  obtain ⟨hwf, hbelow, hfar⟩ := hinv
  rcases List.eq_nil_or_concat cs with rfl | ⟨cs0, L, rfl⟩
  · have hstep : clusterStep [] x = [newCluster x] := rfl
    rw [hstep]
    refine ⟨?_, ?_, ?_⟩
    · intro c hc
      rw [List.mem_singleton] at hc
      subst hc
      refine ⟨by simp [newCluster], ?_⟩
      simp [newCluster]
    · intro c hc p hp x' hx'
      rw [List.mem_singleton] at hc
      subst hc
      simp only [newCluster, List.mem_singleton] at hp
      subst hp
      exact hxlt x' hx'
    · intro c hc
      simp [newCluster] at hc
  · rw [List.concat_eq_append] at hwf hbelow hfar ⊢
    have hdrop : (cs0 ++ [L]).dropLast = cs0 := List.dropLast_concat
    have hF1 : ∀ c ∈ cs0, 40 ≤ |c.center - x| := by
      intro c hc
      have h := hfar c (by rw [hdrop]; exact hc) x (List.mem_cons_self x xs)
      rw [abs_sub_comm, abs_of_nonneg (by linarith)]
      linarith
    have hLlt : L.center < x := by
      have hwfL := hwf L (by simp)
      rw [hwfL.2]
      exact mean_lt hwfL.1
        (fun p hp => hbelow L (by simp) p hp x (List.mem_cons_self x xs))
    have hfind : findClusterIdx x (cs0 ++ [L]) =
        if |L.center - x| < 40 then some cs0.length else none :=
      findClusterIdx_append_last x L cs0 (fun c hc => not_lt.mpr (hF1 c hc))
    by_cases hL : |L.center - x| < 40
    · have hstep : clusterStep (cs0 ++ [L]) x = cs0 ++ [mergedCluster L x] := by
        simp only [clusterStep, hfind, if_pos hL]
        exact mergeAtIdx_append_last x L cs0
      rw [hstep]
      refine ⟨?_, ?_, ?_⟩
      · intro c hc
        rcases List.mem_append.mp hc with hc' | hc'
        · exact hwf c (List.mem_append_left _ hc')
        · rw [List.mem_singleton] at hc'
          subst hc'
          exact ⟨by simp [mergedCluster], rfl⟩
      · intro c hc p hp x' hx'
        rcases List.mem_append.mp hc with hc' | hc'
        · exact hbelow c (List.mem_append_left _ hc') p hp x'
            (List.mem_cons_of_mem x hx')
        · rw [List.mem_singleton] at hc'
          subst hc'
          simp only [mergedCluster] at hp
          rcases List.mem_append.mp hp with hp' | hp'
          · exact hbelow L (by simp) p hp' x' (List.mem_cons_of_mem x hx')
          · rw [List.mem_singleton] at hp'
            subst hp'
            exact hxlt x' hx'
      · intro c hc x' hx'
        rw [List.dropLast_concat] at hc
        exact hfar c (by rw [hdrop]; exact hc) x' (List.mem_cons_of_mem x hx')
    · have hstep : clusterStep (cs0 ++ [L]) x = (cs0 ++ [L]) ++ [newCluster x] := by
        simp only [clusterStep, hfind, if_neg hL]
      rw [hstep]
      have hL40 : L.center + 40 ≤ x := by
        rw [abs_sub_comm, abs_of_nonneg (by linarith)] at hL
        linarith [le_of_not_lt hL]
      refine ⟨?_, ?_, ?_⟩
      · intro c hc
        rcases List.mem_append.mp hc with hc' | hc'
        · exact hwf c hc'
        · rw [List.mem_singleton] at hc'
          subst hc'
          refine ⟨by simp [newCluster], by simp [newCluster]⟩
      · intro c hc p hp x' hx'
        rcases List.mem_append.mp hc with hc' | hc'
        · exact hbelow c hc' p hp x' (List.mem_cons_of_mem x hx')
        · rw [List.mem_singleton] at hc'
          subst hc'
          simp only [newCluster, List.mem_singleton] at hp
          subst hp
          exact hxlt x' hx'
      · intro c hc x' hx'
        rw [List.dropLast_concat] at hc
        rcases List.mem_append.mp hc with hc' | hc'
        · have h := hfar c (by rw [hdrop]; exact hc') x (List.mem_cons_self x xs)
          have := hxlt x' hx'
          linarith
        · rw [List.mem_singleton] at hc'
          subst hc'
          have := hxlt x' hx'
          linarith

theorem foldl_cluster_eq_spec (xs : List ℚ) :
    ∀ cs : List Cluster, List.Sorted (· < ·) xs → ClustersInv cs xs →
      xs.foldl clusterStep cs = xs.foldl specClusterStep cs := by
  induction xs with
  | nil => intro cs _ _; rfl
  | cons x rest ih =>
      intro cs hs hinv
      obtain ⟨hwf, hbelow, hfar⟩ := hinv
      have hs' := List.sorted_cons.mp hs
      rw [List.foldl_cons, List.foldl_cons]
      have hstep : clusterStep cs x = specClusterStep cs x :=
        clusterStep_eq_spec cs x hwf
          (fun c hc p hp => hbelow c hc p hp x (List.mem_cons_self x rest))
          (fun c hc => hfar c hc x (List.mem_cons_self x rest))
      rw [← hstep]
      exact ih (clusterStep cs x) hs'.2
        (clusterStep_inv cs x rest hs'.1 ⟨hwf, hbelow, hfar⟩)

/-- C5: the Column Detector's clustering pass merges each unique left-edge x
value into the nearest existing cluster exactly when that cluster's center is
within 40 units (starting a new cluster otherwise), recomputes the merged
cluster's center as the running mean of its members, and discards clusters
with fewer than 3 members: `detectColumns` coincides with the
nearest-cluster description for every token list and page width.  (On the
ascending unique x values, the code's first-within-threshold cluster is
always the nearest one: every earlier cluster is at least 40 units away.) -/
theorem detectColumns_eq_spec (items : List Tok) (w : ℚ) :
    detectColumns items w = specDetectColumns items w := by
  unfold detectColumns specDetectColumns
  by_cases h : items = []
  · rw [if_pos h, if_pos h]
  · rw [if_neg h, if_neg h]
    have hcl : clustersOf items = specClustersOf items := by
      unfold clustersOf specClustersOf
      apply foldl_cluster_eq_spec
      · exact Finset.sort_sorted_lt _
      · exact ⟨by simp, by simp, by simp⟩
    rw [hcl]
